import Mathlib

/-!
# Verification of the SBTree sequential copy-on-write B-tree

Shallow embedding of `src/sbtree.c` and `src/dbbuffer.c` (ubco-db/sbtree).

Machine integers are modelled as `Nat`/`Int` with explicit wrapping
(`% 2^16`, `% 2^32`) exactly where the C performs fixed-width arithmetic
that can overflow or change sign (the `int32_t` subtraction in
`uint32Compare`, the `int16_t` reads of the count field, the
`int8_t` truncations in `sbtreeNext`).

A page (one fixed-size block, typically 512 bytes) is modelled as a
structure whose fields carry the block's contents under the byte layout of
`sbtree.h`/`sbtree.c`; each field is annotated with the byte offsets the C
code uses.  Between two zeroings of an in-memory buffer page
(`initBufferPage`) the code only ever reads a region under the same
interpretation it wrote it with (leaf records, interior keys, interior
child pointers), so the structured representation is observationally
faithful to the flat byte array.
-/

/-! ## Fixed-width integer helpers -/

/-- Reinterpret the low 16 bits of a natural as a signed `int16_t`. -/
def toInt16 (n : Nat) : Int :=
  if n % 65536 < 32768 then ((n % 65536 : Nat) : Int)
  else ((n % 65536 : Nat) : Int) - 65536

/-- Store an integer into a `uint16_t` (wrap modulo 2^16). -/
def wrap16 (i : Int) : Nat := (i % 65536).toNat

/-- Reinterpret the low 32 bits of a natural as a signed `int32_t`. -/
def toInt32 (n : Nat) : Int :=
  if n % 4294967296 < 2147483648 then ((n % 4294967296 : Nat) : Int)
  else ((n % 4294967296 : Nat) : Int) - 4294967296

/-- Store an integer into a `uint32_t` (wrap modulo 2^32). -/
def wrap32 (i : Int) : Nat := (i % 4294967296).toNat

/-- Reinterpret the low 8 bits of a natural as a signed `int8_t`. -/
def toInt8 (n : Nat) : Int :=
  if n % 256 < 128 then ((n % 256 : Nat) : Int)
  else ((n % 256 : Nat) : Int) - 256

/-! ## Key comparator

`sbtree.c` lines 55-61: the default comparator installed by `sbtreeInit`
(line 93).  It loads both keys as `int32_t` and takes their (wrapping)
`int32_t` difference, then returns the sign of that difference. -/

/-- `uint32Compare` from `sbtree.c` lines 55-61.  Keys are the unsigned
32-bit patterns `a b : Nat` (`< 2^32`); the C reads them as `int32_t` and
subtracts with int32 wrap-around. -/
def uint32Compare (a b : Nat) : Int :=
  let result : Int := toInt32 (wrap32 (toInt32 a - toInt32 b))
  if result < 0 then -1 else if result > 0 then 1 else 0

/-! ## Pages

Block layout (`sbtree.h` lines 57-70, `sbtree.c`):
  * bytes 0..3  : logical page id (`SBTREE_GET_ID`)
  * bytes 4..5  : `uint16_t` count field, overloaded with role flags
                  (+10000 interior, +20000 root)
  * interior interpretation: separator keys at `headerSize + keySize*i`,
    child pointers at `headerSize + keySize*maxInteriorRecordsPerPage + 4*i`
  * leaf interpretation: records of `recordSize` bytes at
    `headerSize + recordSize*i` (key first, then `dataSize` data bytes).

`recKey`/`recData` are indexed by `Int` because `sbtreeFlush` (line 591)
computes the record index `count - 1` in signed arithmetic, which is `-1`
when the write buffer is empty (see claim C10). -/
@[ext]
structure Page where
  /-- bytes 0..3: logical page id stamped by `writePage`. -/
  pageId : Nat
  /-- bytes 4..5: raw `uint16_t` count field including role flags. -/
  rawCount : Nat
  /-- interior separator key slot `i` (4-byte key at `headerSize + keySize*i`). -/
  keys : Nat → Nat
  /-- interior child pointer slot `i`
      (4 bytes at `headerSize + keySize*maxInteriorRecordsPerPage + 4*i`). -/
  ptrs : Nat → Nat
  /-- leaf record key at index `i` (bytes `headerSize + recordSize*i` ..). -/
  recKey : Int → Nat
  /-- leaf record data bytes at index `i`
      (bytes `headerSize + recordSize*i + keySize` ..). -/
  recData : Int → List Nat

/-- A freshly zeroed page (`initBufferPage`, `dbbuffer.c` lines 261-271):
every byte 0, hence every field decodes to zero. -/
def zeroPage (dataSize : Nat) : Page where
  pageId := 0
  rawCount := 0
  keys := fun _ => 0
  ptrs := fun _ => 0
  recKey := fun _ => 0
  recData := fun _ => List.replicate dataSize 0

/-- `SBTREE_GET_COUNT` (`sbtree.h` line 62): `uint16_t` count `% 10000`. -/
def SBTREE_GET_COUNT (p : Page) : Nat := p.rawCount % 10000

/-- `SBTREE_IS_INTERIOR` (`sbtree.h` line 67): `int16_t` read `≥ 10000`. -/
def SBTREE_IS_INTERIOR (p : Page) : Bool := 10000 ≤ toInt16 p.rawCount

/-- `SBTREE_IS_ROOT` (`sbtree.h` line 68): `int16_t` read `≥ 20000`. -/
def SBTREE_IS_ROOT (p : Page) : Bool := 20000 ≤ toInt16 p.rawCount

/-- `SBTREE_INC_COUNT` (`sbtree.h` line 64): `uint16_t` increment. -/
def SBTREE_INC_COUNT (p : Page) : Page :=
  { p with rawCount := (p.rawCount + 1) % 65536 }

/-- `SBTREE_SET_INTERIOR` (`sbtree.h` line 69): add 10000 to the
`int16_t` read of the count field, stored back as `uint16_t`. -/
def SBTREE_SET_INTERIOR (p : Page) : Page :=
  { p with rawCount := wrap16 (toInt16 p.rawCount + 10000) }

/-- `SBTREE_SET_ROOT` (`sbtree.h` line 70): add 20000 to the
`int16_t` read of the count field, stored back as `uint16_t`. -/
def SBTREE_SET_ROOT (p : Page) : Page :=
  { p with rawCount := wrap16 (toInt16 p.rawCount + 20000) }

/-! ## Flush max-key offset (claim C10)

`sbtreeFlush` (`sbtree.c` line 591) computes
`state->writeBuffer + state->recordSize * (SBTREE_GET_COUNT(state->writeBuffer)-1) + state->headerSize`.
`SBTREE_GET_COUNT` yields a non-negative `int`; subtracting 1 is signed,
so for an empty buffer the record index is `-1`. -/

/-- Byte offset (relative to the start of the write buffer) at which
`sbtreeFlush` reads the 4-byte max key; transcribed from `sbtree.c`
line 591. -/
def flushMaxKeyOffset (headerSize recordSize count : Nat) : Int :=
  (recordSize : Int) * ((count : Int) - 1) + (headerSize : Int)

/-! ## Combined system state

`dbbuffer` (`dbbuffer.h` lines 54-69) and `sbtreeState` share the
`activePath` array (the buffer holds a borrowed pointer to the tree's
array) and the slot-0 write buffer, so the model keeps one combined state.
`writeLog` and `rrLog` are ghost observation logs: they record,
respectively, the physical page numbers passed to `storage->writePage`
(in call order) and the slot indices chosen by the round-robin
replacement loop of `readPage`; they influence no behaviour. -/
@[ext]
structure SB where
  /-- configuration -/
  pageSize : Nat
  numPages : Nat
  keySize : Nat
  dataSize : Nat
  /-- derived sizes (`sbtreeInit`, `sbtree.c` lines 85-105) -/
  recordSize : Nat
  headerSize : Nat
  maxRecordsPerPage : Nat
  maxInteriorRecordsPerPage : Nat
  /-- buffer pool: in-memory page of slot `i` (`state->buffer + pageSize*i`) -/
  slots : Nat → Page
  /-- physical page id occupying each slot, or `BUFFER_EMPTY_ID` -/
  status : Nat → Nat
  /-- dirty level per slot, or `NOT_MODIFIED_VAL` -/
  modified : Nat → Nat
  /-- storage back-end: physical page number to page (never written = none) -/
  storage : Nat → Option Page
  /-- total logical ids issued; the C `id_t` (`uint32_t`) variable
  `nextPageId` (`dbbuffer.h` line 60) holds this modulo 2^32, and every
  use of it below reduces modulo 2^32 accordingly -/
  nextPageId : Nat
  /-- total physical writes issued; the C `id_t` (`uint32_t`) variable
  `nextPageWriteId` (`dbbuffer.h` line 61) holds this modulo 2^32, and
  every use of it below reduces modulo 2^32 accordingly -/
  nextPageWriteId : Nat
  numReads : Nat
  numWrites : Nat
  bufferHits : Nat
  lastHit : Nat
  nextBufferPage : Nat
  /-- tree state -/
  levels : Nat
  activePath : Nat → Nat
  /-- ghost log of physical page numbers written to storage -/
  writeLog : List Nat
  /-- ghost log of slots picked by round-robin replacement -/
  rrLog : List Nat

def BUFFER_EMPTY_ID : Nat := 2147483647
def NOT_MODIFIED_VAL : Nat := 100

/-- Pointwise function update used for arrays and maps. -/
def upd {α : Type} (f : Nat → α) (i : Nat) (v : α) : Nat → α :=
  fun n => if n = i then v else f n

/-! ## Buffer operations (`dbbuffer.c`) -/

/-- `initBufferPage` (`dbbuffer.c` lines 261-271): zero the slot. -/
def initBufferPage (s : SB) (bufnum : Nat) : SB :=
  { s with slots := upd s.slots bufnum (zeroPage s.dataSize) }

/-- `writePage` (`dbbuffer.c` lines 186-216).  `bufnum` is the slot index
the C derives from the buffer pointer (`(buffer - state->buffer) /
pageSize`); every caller passes a pool slot.  Writes the page at physical
number `pageNum = state->nextPageWriteId++` (line 189), stamps the logical
id `state->nextPageId++` (line 194) into the page's first 4 bytes, and
updates the slot's status to `pageNum` (line 211).  Both counters are
`id_t` = `uint32_t` (`dbbuffer.h` lines 60-61), so the physical page
number used for the store, the status entry, the write log and the return
value, and the stamped logical id, are the low 32 bits of the running
counts: after 2^32 writes the counter wraps and physical page numbers are
reused.  The `SB` fields keep the total counts, of which the C variables
are the reduction modulo 2^32. -/
def writePage (s : SB) (bufnum : Nat) : SB × Nat :=
  let pageNum := s.nextPageWriteId % 4294967296
  let pg := { s.slots bufnum with pageId := s.nextPageId % 4294967296 }
  ({ s with
      nextPageWriteId := s.nextPageWriteId + 1,
      slots := upd s.slots bufnum pg,
      nextPageId := s.nextPageId + 1,
      storage := fun n => if n = pageNum then some pg else s.storage n,
      writeLog := s.writeLog ++ [pageNum],
      status := upd s.status bufnum pageNum,
      modified := upd s.modified bufnum NOT_MODIFIED_VAL,
      numWrites := s.numWrites + 1 }, pageNum)

/-- `readPageBuffer` (`dbbuffer.c` lines 166-175): load a page from
storage into a given slot.  A never-written physical page reads as zero
bytes (the memory back-end zero-fills; such reads do not occur on the
traces considered). -/
def readPageBuffer (s : SB) (pageNum bufferNum : Nat) : SB :=
  { s with
      slots := upd s.slots bufferNum ((s.storage pageNum).getD (zeroPage s.dataSize)),
      numReads := s.numReads + 1 }

/-- Buffer-hit scan of `readPage` (`dbbuffer.c` lines 83-92): first slot
in `[1, numPages)` whose status equals `pageNum`. -/
def findHit (s : SB) (pageNum : Nat) : Option Nat :=
  ((List.range s.numPages).drop 1).find? (fun i => s.status i = pageNum)

/-- Empty-slot scan of `readPage` (`dbbuffer.c` lines 115-121): first
slot in `[2, numPages)` with empty status. -/
def emptyScan (s : SB) : Option Nat :=
  ((List.range s.numPages).drop 2).find? (fun i => s.status i = BUFFER_EMPTY_ID)

/-- Round-robin replacement loop of `readPage` (`dbbuffer.c` lines
126-140).  Starts at `i = nextBufferPage` (incremented on entry), wraps
past `numPages-1` back to slot 2 (also resetting `nextBufferPage`), and
skips the slot holding `lastHit`.  Returns the chosen slot and the final
`nextBufferPage`.  The C loop can only revisit a slot once (statuses of
distinct slots are distinct), so fuel `2*numPages+4` is never exhausted
on reachable states; on exhaustion the model returns the current slot. -/
def roundRobin (s : SB) (i nbp : Nat) : Nat → Nat × Nat
  | 0 => (i, nbp)
  | fuel+1 =>
    let p := if i > s.numPages - 1 then (2, 2) else (i, nbp)
    if s.status p.1 ≠ s.lastHit then p
    else roundRobin s (p.1 + 1) p.2 fuel

/-- `readPage` (`dbbuffer.c` lines 77-154): return a slot holding the
requested physical page, loading and (if the slot were dirty) writing
back as needed.  Returns the updated state and the slot index. -/
def readPage (s : SB) (pageNum : Nat) : SB × Nat :=
  match findHit s pageNum with
  | some i =>
    ({ s with bufferHits := s.bufferHits + 1, lastHit := s.status i }, i)
  | none =>
    let (s, i) :=
      if s.numPages = 2 then (s, 1)
      else if s.activePath 0 = pageNum then (s, 1)
      else if s.numPages = 3 then (s, 2)
      else
        match emptyScan s with
        | some i => (s, i)
        | none =>
          let p := roundRobin s s.nextBufferPage (s.nextBufferPage + 1)
                     (2 * s.numPages + 4)
          ({ s with nextBufferPage := p.2, rrLog := s.rrLog ++ [p.1] }, p.1)
    let s :=
      if s.modified i ≠ NOT_MODIFIED_VAL then
        let modval := s.modified i
        let r := writePage s i
        { r.1 with activePath := upd r.1.activePath modval r.2 }
      else s
    let s := { s with status := upd s.status i pageNum,
                      modified := upd s.modified i NOT_MODIFIED_VAL }
    (readPageBuffer s pageNum i, i)

/-! ## Tree initialization (`sbtreeInit`, `sbtree.c` lines 81-119,
together with `dbbufferInit`, `dbbuffer.c` lines 47-67) -/

/-- Initial combined state for a given configuration: compute derived
sizes, initialize the buffer counters and slot arrays, create and write
the empty root (recording its physical page in `activePath[0]`), and zero
the write buffer (slot 0). -/
def sbtreeInit (pageSize numPages keySize dataSize : Nat) : SB :=
  let s : SB :=
    { pageSize := pageSize
      numPages := numPages
      keySize := keySize
      dataSize := dataSize
      recordSize := keySize + dataSize
      headerSize := 6
      maxRecordsPerPage := (pageSize - 6) / (keySize + dataSize)
      maxInteriorRecordsPerPage := (pageSize - 6 - 4) / (keySize + 4)
      slots := fun _ => zeroPage dataSize
      status := fun _ => BUFFER_EMPTY_ID
      modified := fun _ => NOT_MODIFIED_VAL
      storage := fun _ => none
      nextPageId := 0
      nextPageWriteId := 0
      numReads := 0
      numWrites := 0
      bufferHits := 0
      lastHit := 0
      nextBufferPage := 1
      levels := 1
      activePath := fun _ => 0
      writeLog := []
      rrLog := [] }
  let s := initBufferPage s 0
  let s := { s with slots := upd s.slots 0 (SBTREE_SET_ROOT (s.slots 0)) }
  let r := writePage s 0
  let s := { r.1 with activePath := upd r.1.activePath 0 r.2 }
  initBufferPage s 0

/-! ## Index maintenance (`sbtreeUpdateIndex`, `sbtree.c` lines 259-372) -/

/-- Truncate/pad a caller-supplied byte list to exactly `n` bytes, as a
`memcpy` of `n` bytes does. -/
def padTrunc (n : Nat) (xs : List Nat) : List Nat :=
  xs.take n ++ List.replicate (n - xs.length) 0

/-- Body of one iteration of the `for (l=state->levels-1; l >= 0; l--)`
loop of `sbtreeUpdateIndex` (`sbtree.c` lines 271-346) at level `l`,
acting on the node `buf` that `updateIndexStep` loads from the active
path (line 269).  `pageNum` is the child page just written below;
`prevPageNum` the previous id of the most recently rewritten active node
(`-1` on the first iteration).  Returns the updated state and `none`
when the node had room (the C `break`), or `some (pageNum', prevPageNum')`
when the node was full and the loop continues at `l-1`. -/
def updateIndexBody (s : SB) (buf : Page) (minkey key : Nat) (l : Nat) (pageNum : Nat)
    (prevPageNum : Int) : SB × Option (Nat × Int) :=
  let count := SBTREE_GET_COUNT buf
  if count > s.maxInteriorRecordsPerPage ∨
     ((l : Int) < (s.levels : Int) - 1 ∧ count ≥ s.maxInteriorRecordsPerPage) then
    -- interior node at this level is full: create a new node (lines 277-304)
    let s :=
      if (l : Int) < (s.levels : Int) - 1 then
        -- patch parent-of-changed-child last pointer, write it (lines 280-284)
        let b := { buf with ptrs := upd buf.ptrs count (wrap32 prevPageNum) }
        let s := { s with slots := upd s.slots 0 b }
        let r := writePage s 0
        { r.1 with activePath := upd r.1.activePath l r.2 }
      else s
    let s := initBufferPage s 0
    let s := { s with slots := upd s.slots 0 (SBTREE_SET_INTERIOR (s.slots 0)) }
    -- store separator (deepest level only) and pointer to new child (lines 290-298)
    let s :=
      if l = s.levels - 1 then
        let b := s.slots 0
        let b := SBTREE_INC_COUNT { b with keys := upd b.keys 0 key }
        { s with slots := upd s.slots 0 b }
      else s
    let s :=
      let b := s.slots 0
      { s with slots := upd s.slots 0 { b with ptrs := upd b.ptrs 0 pageNum } }
    -- write page, update active-path mapping (lines 300-303)
    let prev' : Int := (s.activePath l : Int)
    let r := writePage s 0
    let s := { r.1 with activePath := upd r.1.activePath l r.2 }
    (s, some (s.activePath l, prev'))
  else
    -- non-full: absorb the new child pointer (lines 305-345)
    let buf :=
      if count < s.maxInteriorRecordsPerPage then
        if l = s.levels - 1 then { buf with keys := upd buf.keys count key }
        else { buf with keys := upd buf.keys count minkey }
      else buf
    let buf :=
      if l = 0 ∧ s.levels > 1 then
        -- root special case (lines 318-325)
        let b := { buf with ptrs := upd buf.ptrs (count + 1) pageNum }
        if count > 0 ∧ prevPageNum ≠ -1 then
          { b with ptrs := upd b.ptrs count (wrap32 prevPageNum) }
        else b
      else
        -- general case (lines 326-337); note the local count increment
        if prevPageNum ≠ -1 then
          let b := { buf with ptrs := upd buf.ptrs count (wrap32 prevPageNum) }
          { b with ptrs := upd b.ptrs (count + 1) pageNum }
        else { buf with ptrs := upd buf.ptrs count pageNum }
    let buf := SBTREE_INC_COUNT buf
    let s := { s with slots := upd s.slots 0 buf }
    let r := writePage s 0
    ({ r.1 with activePath := upd r.1.activePath l r.2 }, none)

/-- One iteration of the `for (l=state->levels-1; l >= 0; l--)` loop of
`sbtreeUpdateIndex` (`sbtree.c` lines 267-347): load the active node of
level `l` through the write buffer (line 269) and run the body on it. -/
def updateIndexStep (s0 : SB) (minkey key : Nat) (l : Nat) (pageNum : Nat)
    (prevPageNum : Int) : SB × Option (Nat × Int) :=
  let s := readPageBuffer s0 (s0.activePath l) 0
  updateIndexBody s (s.slots 0) minkey key l pageNum prevPageNum

/-- The level loop of `sbtreeUpdateIndex`: run `updateIndexStep` from
level `l` downwards.  Returns `none` if the loop broke at a non-full
node, or `some prevPageNum` if it fell past the root (the C `l == -1`),
in which case the caller grows the tree. -/
def updateIndexLoop (s : SB) (minkey key : Nat) (pageNum : Nat)
    (prevPageNum : Int) : Nat → SB × Option Int
  | 0 =>
    match updateIndexStep s minkey key 0 pageNum prevPageNum with
    | (s, none) => (s, none)
    | (s, some (_, prev')) => (s, some prev')
  | l + 1 =>
    match updateIndexStep s minkey key (l + 1) pageNum prevPageNum with
    | (s, none) => (s, none)
    | (s, some (pageNum', prev')) => updateIndexLoop s minkey key pageNum' prev' l

/-- `sbtreeUpdateIndex` (`sbtree.c` lines 259-372): run the level loop
and, if the root was full all the way up, grow the tree by one level
(lines 349-370). -/
def sbtreeUpdateIndex (s : SB) (minkey key : Nat) (pageNum : Nat) : SB × Int :=
  match updateIndexLoop s minkey key pageNum (-1) (s.levels - 1) with
  | (s, none) => (s, 0)
  | (s, some prevPageNum) =>
    let s := initBufferPage s 0
    let b := s.slots 0
    let b := { b with keys := upd b.keys 0 minkey }
    let b := { b with ptrs := upd b.ptrs 0 (wrap32 prevPageNum) }
    let b := { b with ptrs := upd b.ptrs 1 (s.activePath 0) }
    let b := SBTREE_SET_ROOT (SBTREE_INC_COUNT b)
    let s := { s with slots := upd s.slots 0 b }
    -- shift the active path down one level (lines 366-367)
    let s := { s with activePath := fun i =>
                if 1 ≤ i ∧ i ≤ s.levels then s.activePath (i - 1) else s.activePath i }
    let r := writePage s 0
    let s := { r.1 with activePath := upd r.1.activePath 0 r.2 }
    ({ s with levels := s.levels + 1 }, 0)

/-! ## Insertion (`sbtreePut`, `sbtree.c` lines 384-413) -/

/-- `sbtreePut`: if the leaf write buffer (slot 0) is full, write it,
update the index with separator = the key now being inserted, and zero
the buffer; then append the record `(key, data)` and bump the count. -/
def sbtreePut (s : SB) (key : Nat) (data : List Nat) : SB × Int :=
  let count0 := SBTREE_GET_COUNT (s.slots 0)
  let step :
      SB × Nat × Bool :=
    if count0 ≥ s.maxRecordsPerPage then
      let r := writePage s 0
      let s := r.1
      let tempKey := (s.slots 0).recKey 0
      let u := sbtreeUpdateIndex s tempKey key r.2
      if u.2 ≠ 0 then (u.1, 0, true)
      else (initBufferPage u.1 0, 0, false)
    else (s, count0, false)
  match step with
  | (s, _, true) => (s, -1)
  | (s, count, false) =>
    let b := s.slots 0
    let b := { b with
        recKey := fun i => if i = (count : Int) then key else b.recKey i,
        recData := fun i => if i = (count : Int) then padTrunc s.dataSize data
                            else b.recData i }
    let b := SBTREE_INC_COUNT b
    ({ s with slots := upd s.slots 0 b }, 0)

/-! ## Node search (`sbtreeSearchNode`, `sbtree.c` lines 431-498) -/

/-- Binary-search loop over interior separators (lines 458-472).
Indices are the C `int16_t` variables (non-negative here); `middle` is
always `(first+last)/2` of the current bounds, both at loop entry and
after each update, so it is recomputed rather than carried.  Termination
is by the interval width, supplied as fuel (`count+2` suffices). -/
def interiorSearchLoop (p : Page) (key : Nat) (first last : Nat) :
    Nat → Nat
  | 0 => last
  | fuel+1 =>
    if first < last then
      let middle := (first + last) / 2
      let mkey := p.keys middle
      let c := uint32Compare key mkey
      if c > 0 then interiorSearchLoop p key (middle + 1) last fuel
      else if c = 0 then middle + 1
      else interiorSearchLoop p key first middle fuel
    else last

/-- Binary-search loop over leaf records (lines 477-497).  `first`,
`last`, `middle` are C `int16_t`; `last` can reach `-1`, and division
truncates toward zero (`Int.tdiv`).  On exit the C returns `middle`
(recomputed from the final bounds) for a range query and `-1` otherwise. -/
def leafSearchLoop (p : Page) (key : Nat) (rng : Bool) (first last : Int) :
    Nat → Int
  | 0 => if rng then Int.tdiv (first + last) 2 else -1
  | fuel+1 =>
    if first ≤ last then
      let middle := Int.tdiv (first + last) 2
      let mkey := p.recKey middle
      let c := uint32Compare mkey key
      if c < 0 then leafSearchLoop p key rng (middle + 1) last fuel
      else if c = 0 then middle
      else leafSearchLoop p key rng first (middle - 1) fuel
    else if rng then Int.tdiv (first + last) 2 else -1

/-- `sbtreeSearchNode`: on an interior node, the child-pointer index to
follow; on a leaf, the record index of an exact match (or the insertion
position for a range query, or `-1`).  The `pageId` parameter of the C
function is unused by its body and omitted. -/
def sbtreeSearchNode (s : SB) (p : Page) (key : Nat) (rng : Bool) : Int :=
  let count := SBTREE_GET_COUNT p
  if SBTREE_IS_INTERIOR p then
    if count = 0 then 0
    else if count = 1 then
      if uint32Compare key (p.keys 0) < 0 then 0 else 1
    else
      let last := if count > s.maxInteriorRecordsPerPage
                  then s.maxInteriorRecordsPerPage else count
      (interiorSearchLoop p key 0 last (count + 2) : Int)
  else
    leafSearchLoop p key rng 0 ((count : Int) - 1) (count + 2)

/-! ## Child-pointer resolution (`getChildPageId`, `sbtree.c`
lines 516-528) -/

/-- `getChildPageId`: remap the trailing child of an active-path node to
the current active path; otherwise return the raw stored pointer, with
`-1` for a zero trailing pointer (unused child). -/
def getChildPageId (s : SB) (buf : Page) (pageId : Nat) (level : Nat)
    (childNum : Int) : Int :=
  if childNum = (SBTREE_GET_COUNT buf : Int) ∧
     (level : Int) < (s.levels : Int) - 1 ∧ pageId = s.activePath level then
    (s.activePath (level + 1) : Int)
  else
    let nextId := buf.ptrs childNum.toNat
    if nextId = 0 ∧ childNum = (SBTREE_GET_COUNT buf : Int) then -1
    else (nextId : Int)

/-! ## Point lookup (`sbtreeGet`, `sbtree.c` lines 542-569) -/

/-- The descent loop of `sbtreeGet` (lines 549-558): `remaining` counts
the levels still to descend (starting at `levels`), `l` the current
level. -/
def sbtreeGetDescend (s : SB) (key : Nat) (nextId : Nat) (l : Nat) :
    Nat → SB × Int
  | 0 => (s, (nextId : Int))
  | r+1 =>
    let rd := readPage s nextId
    let s := rd.1
    let buf := s.slots rd.2
    let childNum := sbtreeSearchNode s buf key false
    let nid := getChildPageId s buf nextId l childNum
    if nid = -1 then (s, -1)
    else sbtreeGetDescend s key nid.toNat (l + 1) r

/-- `sbtreeGet`: descend from the root, then search the leaf; `some data`
models return 0 with the record's `dataSize` bytes copied out, `none`
models return `-1`. -/
def sbtreeGet (s : SB) (key : Nat) : SB × Option (List Nat) :=
  let d := sbtreeGetDescend s key (s.activePath 0) 0 s.levels
  let s := d.1
  if d.2 = -1 then (s, none)
  else
    let rd := readPage s d.2.toNat
    let s := rd.1
    let buf := s.slots rd.2
    let idx := sbtreeSearchNode s buf key false
    if idx ≠ -1 then (s, some (buf.recData idx))
    else (s, none)

/-! ## Flush (`sbtreeFlush`, `sbtree.c` lines 576-603) -/

/-- `sbtreeFlush`: write the (possibly partial) leaf buffer, then update
the index with separator `maxkey+1`, where `maxkey` is read from record
`count-1` of the write buffer (an out-of-range read when `count = 0`; the
model then yields the zero default — see claim C10).  Finally zero the
write buffer. -/
def sbtreeFlush (s : SB) : SB × Int :=
  let r := writePage s 0
  let s := r.1
  let wb := s.slots 0
  let cnt := SBTREE_GET_COUNT wb
  let mkey := wrap32 (toInt32 (wb.recKey ((cnt : Int) - 1)) + 1)
  let minKey := wb.recKey 0
  let u := sbtreeUpdateIndex s minKey mkey r.2
  if u.2 ≠ 0 then (u.1, -1)
  else (initBufferPage u.1 0, 0)

/-! ## Iterator (`sbtreeInitIterator` lines 613-642, `sbtreeNext`
lines 656-741 of `sbtree.c`).

The C iterator caches a raw pointer to the buffer slot holding the
current leaf (`it->currentBuffer`); the model stores the slot index, with
`none` for `NULL`.  `state->parameters` never has the bitmap flag set
(the test harness leaves it 0), so the bitmap branch of `sbtreeNext`
reduces to an unconditional break and is modelled as such. -/
structure Iter where
  minKey : Nat
  maxKey : Nat
  activeIteratorPath : Nat → Nat
  /-- per-level cursor; C `int`, reaches `-1` never but is written from
  signed arithmetic, hence `Int`. -/
  lastIterRec : Nat → Int
  /-- slot index of the cached current leaf (`NULL` = none). -/
  currentBuffer : Option Nat

/-- Update an `Iter` cursor entry. -/
def updI (f : Nat → Int) (i : Nat) (v : Int) : Nat → Int :=
  fun n => if n = i then v else f n

/-- Descent loop of `sbtreeInitIterator` (lines 622-634): `remaining`
counts levels still to visit (starting at `levels`), `l` the level. -/
def initIteratorLoop (s : SB) (it : Iter) (nextId : Nat) (l : Nat) :
    Nat → SB × Iter × Int
  | 0 => (s, it, (nextId : Int))
  | r+1 =>
    let it := { it with activeIteratorPath := upd it.activeIteratorPath l nextId }
    let rd := readPage s nextId
    let s := rd.1
    let buf := s.slots rd.2
    let childNum := sbtreeSearchNode s buf it.minKey true
    let nid := getChildPageId s buf nextId l childNum
    if nid = -1 then (s, it, -1)
    else
      let it := { it with lastIterRec := updI it.lastIterRec l childNum }
      initIteratorLoop s it nid.toNat (l + 1) r

/-- `sbtreeInitIterator`: descend towards `minKey` with range searches,
recording the node id and child cursor per level; cache the leaf slot in
`currentBuffer` (left `none` when the descent hits an unresolved child). -/
def sbtreeInitIterator (s : SB) (minKey maxKey : Nat) : SB × Iter :=
  let it0 : Iter :=
    { minKey := minKey, maxKey := maxKey,
      activeIteratorPath := fun _ => 0, lastIterRec := fun _ => 0,
      currentBuffer := none }
  let d := initIteratorLoop s it0 (s.activePath 0) 0 s.levels
  let s := d.1
  let it := d.2.1
  if d.2.2 = -1 then (s, it)
  else
    let nid := d.2.2.toNat
    let it := { it with activeIteratorPath := upd it.activeIteratorPath s.levels nid }
    let rd := readPage s nid
    let s := rd.1
    let it := { it with currentBuffer := some rd.2 }
    let buf := s.slots rd.2
    let childNum := sbtreeSearchNode s buf it.minKey true
    (s, { it with lastIterRec := updI it.lastIterRec s.levels childNum })

/-- Upward scan of `sbtreeNext` (lines 676-691): find the deepest level
with another child to visit.  Called with fuel `levels`; at fuel `f+1`
the current level is `l = f`, so levels are visited `levels-1, …, 0`;
running out of fuel is the C's `l == -1` (tree exhausted).  The per-level
count is read through an `int8_t` (line 682), with the deepest interior
level's count reduced by one (its last child was consumed on entry). -/
def nextUpLoop (s : SB) (it : Iter) : Nat → SB × Iter × Option (Nat × Nat)
  | 0 => (s, it, none)
  | f+1 =>
    let l := f
    let rd := readPage s (it.activeIteratorPath l)
    let s := rd.1
    let buf := s.slots rd.2
    let count := toInt8 (SBTREE_GET_COUNT buf)
    let count := if l = s.levels - 1 then count - 1 else count
    if it.lastIterRec l < count then
      (s, { it with lastIterRec := updI it.lastIterRec l (it.lastIterRec l + 1) },
       some (l, rd.2))
    else
      nextUpLoop s { it with lastIterRec := updI it.lastIterRec l 0 } f

/-- Downward re-descent of `sbtreeNext` (lines 695-706): from level `l`
(with `buf` in slot `slot`) follow `getChildPageId` down to the leaf.
`remaining = levels - l`. -/
def nextDownLoop (s : SB) (it : Iter) (slot : Nat) (l : Nat) :
    Nat → SB × Iter × Option Nat
  | 0 => (s, it, some slot)
  | r+1 =>
    let buf := s.slots slot
    let nid := getChildPageId s buf (it.activeIteratorPath l) l (it.lastIterRec l)
    if nid = -1 then (s, it, none)
    else
      let it := { it with activeIteratorPath := upd it.activeIteratorPath (l + 1) nid.toNat }
      let rd := readPage s nid.toNat
      nextDownLoop rd.1 it rd.2 (l + 1) r

/-- Page-advance step of `sbtreeNext` (lines 670-726): scan up for the
next unvisited child, then re-descend to the new leaf and cache it. -/
def nextAdvance (s : SB) (it : Iter) : SB × Iter × Option Nat :=
  match nextUpLoop s it s.levels with
  | (s, it, none) => (s, it, none)
  | (s, it, some (l, slot)) =>
    match nextDownLoop s it slot l (s.levels - l) with
    | (s, it, none) => (s, it, none)
    | (s, it, some leafSlot) =>
      (s, { it with currentBuffer := some leafSlot }, some leafSlot)

/-- Main loop of `sbtreeNext` (lines 667-740): advance past exhausted
leaves, emit the record at the cursor, skip records below `minKey`, stop
past `maxKey`.  `some (key, data)` models return 1 with the record
pointers; `none` models return 0.  One fuel unit is spent per emitted or
skipped record; the caller supplies enough for the whole iteration. -/
def sbtreeNextLoop (s : SB) (it : Iter) (slot : Nat) :
    Nat → SB × Iter × Option (Nat × List Nat)
  | 0 => (s, it, none)
  | f+1 =>
    let lv := s.levels
    let step : SB × Iter × Option Nat :=
      if (SBTREE_GET_COUNT (s.slots slot) : Int) ≤ it.lastIterRec lv then
        nextAdvance s { it with lastIterRec := updI it.lastIterRec lv 0 }
      else (s, it, some slot)
    match step with
    | (s, it, none) => (s, it, none)
    | (s, it, some slot) =>
      let buf := s.slots slot
      let key := buf.recKey (it.lastIterRec lv)
      let data := buf.recData (it.lastIterRec lv)
      let it := { it with lastIterRec := updI it.lastIterRec lv (it.lastIterRec lv + 1) }
      if uint32Compare key it.minKey < 0 then sbtreeNextLoop s it slot f
      else if 0 < uint32Compare key it.maxKey then (s, it, none)
      else (s, it, some (key, data))

/-- `sbtreeNext`: `none` when there is no cached leaf (descent failed or
iteration finished), otherwise run the main loop. -/
def sbtreeNext (s : SB) (it : Iter) (fuel : Nat) :
    SB × Iter × Option (Nat × List Nat) :=
  match it.currentBuffer with
  | none => (s, it, none)
  | some slot => sbtreeNextLoop s it slot fuel

/-! ## Operation sequences -/

/-- A client operation: insert a record or flush. -/
inductive Op where
  | put (key : Nat) (data : List Nat)
  | flush
deriving Repr

/-- Run a list of operations (discarding status codes, which are always 0
on these paths). -/
def runOps (s : SB) : List Op → SB
  | [] => s
  | Op.put k d :: ops => runOps (sbtreePut s k d).1 ops
  | Op.flush :: ops => runOps (sbtreeFlush s).1 ops

/-- Repeatedly call `sbtreeNext` (with per-call fuel `fuel`), collecting
the returned records until it returns `none`; `outer` bounds the number
of calls. -/
def iterCollect (s : SB) (it : Iter) (fuel : Nat) :
    Nat → SB × Iter × List (Nat × List Nat)
  | 0 => (s, it, [])
  | n+1 =>
    match sbtreeNext s it fuel with
    | (s, it, none) => (s, it, [])
    | (s, it, some kd) =>
      let rest := iterCollect s it fuel n
      (rest.1, rest.2.1, kd :: rest.2.2)

/-! ## Write sequences (claim C6) -/

/-- `dbbufferInit` (`dbbuffer.c` lines 47-67): reset both id counters and
the statistics, mark every slot empty and unmodified, set
`nextBufferPage = 1`.  The ghost write log restarts with the counters. -/
def dbbufferInit (s : SB) : SB :=
  { s with
      nextPageId := 0
      nextPageWriteId := 0
      numReads := 0
      numWrites := 0
      bufferHits := 0
      lastHit := 0
      nextBufferPage := 1
      status := fun _ => BUFFER_EMPTY_ID
      modified := fun _ => NOT_MODIFIED_VAL
      writeLog := []
      rrLog := [] }

/-- Run a sequence of `writePage` calls (one per listed slot index),
returning the final state and the returned physical page numbers in call
order. -/
def runWrites (s : SB) : List Nat → SB × List Nat
  | [] => (s, [])
  | b :: bs =>
    let r := writePage s b
    let rest := runWrites r.1 bs
    (rest.1, r.2 :: rest.2)

/-! ## Concrete traces used by individual claims -/

/-- Four data bytes derived from a key (used in concrete traces). -/
def mkData (k : Nat) : List Nat := [k % 256, (k + 1) % 256, (k + 2) % 256, (k + 3) % 256]

/-- `n` in-order insertions of keys `0, …, n-1`. -/
def mkPuts (n : Nat) : List Op := (List.range n).map (fun k => Op.put k (mkData k))

/-- Claim C4 counterexample: one `put`, then two consecutive flushes. -/
def c4StateA : SB := (sbtreeFlush (sbtreePut (sbtreeInit 38 5 4 4) 5 (mkData 5)).1).1

/-- State after the second of two consecutive flushes. -/
def c4StateB : SB := (sbtreeFlush c4StateA).1

/-- A full interior page used by the claim C5 scenario: count field
`10003` (interior + count 3 = `maxInteriorRecordsPerPage + 1` for the
pageSize-30 configuration, hence full at every level), root-flagged at
level 0, with arbitrary nonzero child pointers. -/
def c5Interior (l : Nat) : Page :=
  { pageId := l
    rawCount := if l = 0 then 20003 else 10003
    keys := fun i => 1000 * (l + 1) + i
    ptrs := fun i => 100 + 10 * l + i
    recKey := fun _ => 0
    recData := fun _ => List.replicate 4 0 }

/-- Claim C5 scenario: a tree of `levels = 8` whose active-path node at
every level is full (pageSize 30: `maxRecordsPerPage = 3`,
`maxInteriorRecordsPerPage = 2`), with a full leaf write buffer, so that
the next `put` overflows the root at depth 8 and grows the tree to 9
levels.  Physical page `l` holds the full interior node of level `l`. -/
def c5State : SB :=
  { pageSize := 30
    numPages := 5
    keySize := 4
    dataSize := 4
    recordSize := 8
    headerSize := 6
    maxRecordsPerPage := 3
    maxInteriorRecordsPerPage := 2
    slots := fun i =>
      if i = 0 then
        { pageId := 90
          rawCount := 3
          keys := fun _ => 0
          ptrs := fun _ => 0
          recKey := fun i => 50 + 2 * i.toNat
          recData := fun _ => List.replicate 4 7 }
      else zeroPage 4
    status := fun _ => BUFFER_EMPTY_ID
    modified := fun _ => NOT_MODIFIED_VAL
    storage := fun n => if n < 8 then some (c5Interior n) else none
    nextPageId := 20
    nextPageWriteId := 20
    numReads := 0
    numWrites := 0
    bufferHits := 0
    lastHit := 0
    nextBufferPage := 1
    levels := 8
    activePath := fun i => i
    writeLog := []
    rrLog := [] }

/-- Result of the overflowing `put` of claim C5. -/
def c5After : SB × Int := sbtreePut c5State 60 (mkData 60)

/-- Claim C7 trace: pageSize 30 (leaf capacity 3, interior capacity 2),
4 buffer slots; insert keys 0..9, flush, then open an iterator over the
whole key range. -/
def c7Base : SB := runOps (sbtreeInit 30 4 4 4) (mkPuts 10 ++ [Op.flush])

/-- Iterator opened on the claim C7 trace. -/
def c7Iter : SB × Iter := sbtreeInitIterator c7Base 0 1000000

/-- First three `sbtreeNext` calls of the claim C7 trace (each returns a
record; none triggers round-robin replacement). -/
def c7Step3 : SB × Iter × Option (Nat × List Nat) :=
  let n1 := sbtreeNext c7Iter.1 c7Iter.2 100
  let n2 := sbtreeNext n1.1 n1.2.1 100
  sbtreeNext n2.1 n2.2.1 100

/-- Fourth `sbtreeNext` call of the claim C7 trace: advancing to the next
leaf misses the buffer, every slot `≥ 2` is occupied, and the round-robin
loop — whose cursor `nextBufferPage` still holds its initial value 1 —
picks slot 1, evicting the root. -/
def c7Step4 : SB × Iter × Option (Nat × List Nat) :=
  sbtreeNext c7Step3.1 c7Step3.2.1 100

/-- Buffer-pool invariant: no slot is marked modified, and the
round-robin cursor is positive. -/
def BufInv (s : SB) : Prop :=
  (∀ i, s.modified i = NOT_MODIFIED_VAL) ∧ 1 ≤ s.nextBufferPage

/-- Cache transparency: every pool slot `j ≥ 1` whose status names an
already-issued physical page holds exactly that page's stored bytes.
(Slot 0 is exempt: after `writePage`+`initBufferPage` its status names
the page just written while the slot holds the fresh zeroed buffer; the
hit scan of `readPage` starts at slot 1 and never consults it.) -/
def CacheOK (s : SB) : Prop :=
  ∀ j, 1 ≤ j → s.status j ≠ BUFFER_EMPTY_ID → s.status j < s.nextPageWriteId →
    s.storage (s.status j) = some (s.slots j)

/-- Every physical page number below the write counter has been written. -/
def WrittenBelow (s : SB) : Prop :=
  ∀ q, q < s.nextPageWriteId → s.storage q ≠ none

/-- Every occupied pool slot `j ≥ 1` names an already-issued physical
page.  (Together with `CacheOK` this keeps the cache transparent when the
write counter grows: a slot can never anticipate a page number that has
not been written yet.) -/
def StatusBelow (s : SB) : Prop :=
  ∀ j, 1 ≤ j → s.status j ≠ BUFFER_EMPTY_ID → s.status j < s.nextPageWriteId

/-- Combined pool invariant used by the lookup and round-trip proofs. -/
def PoolInv (s : SB) : Prop := BufInv s ∧ CacheOK s ∧ WrittenBelow s ∧ StatusBelow s

/-- The state components a pure page read can never change: the whole
configuration, the storage back-end and both id counters, the write
statistic and log, the tree shape, and the slot-0 write buffer. -/
def ReadFrame (s t : SB) : Prop :=
  t.pageSize = s.pageSize ∧ t.numPages = s.numPages ∧ t.keySize = s.keySize ∧
  t.dataSize = s.dataSize ∧ t.recordSize = s.recordSize ∧
  t.headerSize = s.headerSize ∧ t.maxRecordsPerPage = s.maxRecordsPerPage ∧
  t.maxInteriorRecordsPerPage = s.maxInteriorRecordsPerPage ∧
  t.storage = s.storage ∧ t.nextPageId = s.nextPageId ∧
  t.nextPageWriteId = s.nextPageWriteId ∧ t.numWrites = s.numWrites ∧
  t.writeLog = s.writeLog ∧ t.levels = s.levels ∧ t.activePath = s.activePath ∧
  t.slots 0 = s.slots 0

/-! ## Reachability (claim C9)

States produced from initialization by any sequence of the public
operations. -/

/-- Reachable combined states: initialization followed by any sequence of
`put`, `get`, `flush`, iterator initialization and iterator `next`. -/
inductive Reachable : SB → Prop
  | init (pageSize numPages keySize dataSize : Nat) :
      Reachable (sbtreeInit pageSize numPages keySize dataSize)
  | put {s : SB} (key : Nat) (data : List Nat) :
      Reachable s → Reachable (sbtreePut s key data).1
  | flush {s : SB} : Reachable s → Reachable (sbtreeFlush s).1
  | get {s : SB} (key : Nat) : Reachable s → Reachable (sbtreeGet s key).1
  | initIter {s : SB} (minKey maxKey : Nat) :
      Reachable s → Reachable (sbtreeInitIterator s minKey maxKey).1
  | next {s : SB} (it : Iter) (fuel : Nat) :
      Reachable s → Reachable (sbtreeNext s it fuel).1

/-! ## Round-trip invariant (claim C1)

Abstract view of the tree contents: a list of `(key, stored data)`
records.  `SubRep` describes a frozen (copy-on-write, immutable) subtree
in storage; `MidFrame`/`DeepFrame`/`SpineTo`/`DeepNode` describe the
active path, whose nodes are reached through the `getChildPageId` remap;
`TreeInv` ties them to a combined state. -/

/-- Abstract record: a key paired with the stored (padded) data bytes. -/
def KV : Type := Nat × List Nat

/-- All keys in `kvs` are below `b`. -/
def keysLT (kvs : List KV) (b : Nat) : Prop := ∀ kv ∈ kvs, kv.1 < b

/-- All keys in `kvs` are at least `b`. -/
def keysGE (kvs : List KV) (b : Nat) : Prop := ∀ kv ∈ kvs, b ≤ kv.1

/-- Strictly increasing key order. -/
def kvSorted (kvs : List KV) : Prop := List.Pairwise (fun a b : KV => a.1 < b.1) kvs

/-- Concatenation of the record lists of children `0 .. c-1`, in child
order. -/
def kvCat (kvss : Nat → List KV) : Nat → List KV
  | 0 => []
  | c + 1 => kvCat kvss c ++ kvss c

/-- A leaf page holding exactly the records `kvs`: the raw count field is
the record count (leaf pages carry no role flags) and record slot `i`
holds the `i`-th key and data bytes. -/
def LeafRep (p : Page) (kvs : List KV) : Prop :=
  p.rawCount = kvs.length ∧
  ∀ (i : Nat) (h : i < kvs.length),
    p.recKey (i : Int) = (kvs.get ⟨i, h⟩).1 ∧ p.recData (i : Int) = (kvs.get ⟨i, h⟩).2

/-- Frozen subtree rooted at physical page `q`, seen at tree level `lvl`
(root = 0, leaves = `lev`), holding records `kvs`, all keys `≥ lo`.
Parameters: `st` = storage, `N` = bound on issued page numbers, `lev` =
current `state->levels`, `ap` = current active path, `M` =
`maxInteriorRecordsPerPage`.  Frozen interior nodes always carry exactly
`M` separators and `M+1` children: a deepest-level interior freezes when
its count reaches `M+1` (all pointer slots written), any other interior
freezes at count `M` when its trailing pointer is patched with the final
version of its last child (`sbtree.c` lines 280-284).  A frozen interior
at a level with an active trailing remap (`lvl + 1 < lev`) was written
before the current active node of its level, so its page number is
smaller — hence `getChildPageId` never remaps inside a frozen subtree. -/
inductive SubRep (st : Nat → Option Page) (N lev : Nat) (ap : Nat → Nat) (M : Nat) :
    Nat → Nat → List KV → Nat → Prop
  | leaf (q : Nat) (kvs : List KV) (lo : Nat) (p : Page)
      (hst : st q = some p) (hq0 : q ≠ 0) (hqN : q < N)
      (hleaf : SBTREE_IS_INTERIOR p = false)
      (hlen : kvs.length < 10000)
      (hrep : LeafRep p kvs)
      (hne : kvs ≠ [])
      (hsort : kvSorted kvs)
      (hkb : keysLT kvs (2 ^ 31))
      (hlo : keysGE kvs lo) :
      SubRep st N lev ap M lev q kvs lo
  | node (lvl q : Nat) (kvs : List KV) (lo : Nat) (p : Page) (kvss : Nat → List KV)
      (hst : st q = some p) (hq0 : q ≠ 0) (hqN : q < N)
      (hlvl : lvl < lev)
      (hap : lvl + 1 < lev → q < ap lvl)
      (hint : SBTREE_IS_INTERIOR p = true)
      (hcnt : SBTREE_GET_COUNT p = M ∨ SBTREE_GET_COUNT p = M + 1)
      (hsort : ∀ i j : Nat, i < j → j < M → p.keys i < p.keys j)
      (hkb : ∀ i : Nat, i < M → p.keys i < 2 ^ 31)
      (hlo0 : 1 ≤ M → lo ≤ p.keys 0)
      (hkvs : kvs = kvCat kvss (M + 1))
      (hchild : ∀ j : Nat, j ≤ M → SubRep st N lev ap M (lvl + 1) (p.ptrs j) (kvss j)
          (if j = 0 then lo else p.keys (j - 1)))
      (hub : ∀ j : Nat, j < M → keysLT (kvss j) (p.keys j)) :
      SubRep st N lev ap M lvl q kvs lo

/-- The active interior node of a non-deepest level `lvl`: stored at
`ap lvl`, count `c ≤ M`, with `c` separators, `c` frozen children in
pointer slots `0..c-1`, and a stale trailing pointer slot `c` that
`getChildPageId` remaps to `ap (lvl+1)`.  All separators are `≤ hi` (the
smallest key that can still arrive from the write buffer). -/
structure MidFrame (st : Nat → Option Page) (N lev : Nat) (ap : Nat → Nat) (M : Nat)
    (lvl : Nat) (p : Page) (kvss : Nat → List KV) (lo hi : Nat) : Prop where
  hst : st (ap lvl) = some p
  hqN : ap lvl < N
  hlvl : lvl + 1 < lev
  hint : SBTREE_IS_INTERIOR p = true
  hcnt : SBTREE_GET_COUNT p ≤ M
  hsort : ∀ i j : Nat, i < j → j < SBTREE_GET_COUNT p → p.keys i < p.keys j
  hkb : ∀ i : Nat, i < SBTREE_GET_COUNT p → p.keys i < 2 ^ 31
  hhi : ∀ i : Nat, i < SBTREE_GET_COUNT p → p.keys i < hi
  hlohi : lo ≤ hi
  hlo0 : 1 ≤ SBTREE_GET_COUNT p → lo ≤ p.keys 0
  hchild : ∀ j : Nat, j < SBTREE_GET_COUNT p →
    SubRep st N lev ap M (lvl + 1) (p.ptrs j) (kvss j) (if j = 0 then lo else p.keys (j - 1))
  hub : ∀ j : Nat, j < SBTREE_GET_COUNT p → keysLT (kvss j) (p.keys j)
  hraw : p.rawCount = 10000 + SBTREE_GET_COUNT p ∨
    p.rawCount = 20000 + SBTREE_GET_COUNT p ∨ p.rawCount = 30000 + SBTREE_GET_COUNT p

/-- The active deepest interior node (level `lev - 1`), stored at
`ap (lev-1)`: count `c ≤ M + 1`, with `min c M` separators and `c` leaf
children in pointer slots `0..c-1` (after the `M+1`-st leaf arrives the
node is over-full and all `M+1` pointer slots are real until the node
freezes). -/
structure DeepFrame (st : Nat → Option Page) (N lev : Nat) (ap : Nat → Nat) (M : Nat)
    (p : Page) (kvss : Nat → List KV) (lo hi : Nat) : Prop where
  hst : st (ap (lev - 1)) = some p
  hqN : ap (lev - 1) < N
  hint : SBTREE_IS_INTERIOR p = true
  hcnt : SBTREE_GET_COUNT p ≤ M + 1
  hsort : ∀ i j : Nat, i < j → j < min (SBTREE_GET_COUNT p) M → p.keys i < p.keys j
  hkb : ∀ i : Nat, i < min (SBTREE_GET_COUNT p) M → p.keys i < 2 ^ 31
  hhi : ∀ i : Nat, i < min (SBTREE_GET_COUNT p) M → p.keys i ≤ hi
  hlohi : lo ≤ hi
  hlo0 : 1 ≤ min (SBTREE_GET_COUNT p) M → lo ≤ p.keys 0
  hchild : ∀ j : Nat, j < SBTREE_GET_COUNT p →
    SubRep st N lev ap M lev (p.ptrs j) (kvss j) (if j = 0 then lo else p.keys (j - 1))
  hub : ∀ j : Nat, j < min (SBTREE_GET_COUNT p) M → keysLT (kvss j) (p.keys j)
  hraw : p.rawCount = 10000 + SBTREE_GET_COUNT p ∨
    p.rawCount = 20000 + SBTREE_GET_COUNT p ∨ p.rawCount = 30000 + SBTREE_GET_COUNT p
  hap0 : 1 ≤ SBTREE_GET_COUNT p → ap (lev - 1) ≠ 0

/-- The active path from level `lvl` down to (but not including) level
`hl`, as nested `MidFrame`s; the level-`(hl-1)` frame's trailing remap
dangles, expecting a subtree of keys `≥ dlo`.  `kvs` collects the frozen
records of these frames in key order; `rmin` is a lower bound on the
count of the topmost frame (the root, once the tree has more than one
level, always has at least one separator). -/
inductive SpineTo (st : Nat → Option Page) (N lev : Nat) (ap : Nat → Nat) (M : Nat) :
    Nat → Nat → Nat → List KV → Nat → Nat → Nat → Prop
  | nil (rmin lvl lo hi : Nat) (h : lo ≤ hi) : SpineTo st N lev ap M rmin lvl lvl [] lo hi lo
  | cons (rmin lvl hl : Nat) (p : Page) (kvss : Nat → List KV) (kvsR : List KV)
      (lo hi dlo : Nat)
      (hf : MidFrame st N lev ap M lvl p kvss lo hi)
      (hr : rmin ≤ SBTREE_GET_COUNT p)
      (rest : SpineTo st N lev ap M 0 (lvl + 1) hl kvsR
        (if SBTREE_GET_COUNT p = 0 then lo else p.keys (SBTREE_GET_COUNT p - 1)) hi dlo) :
      SpineTo st N lev ap M rmin lvl hl (kvCat kvss (SBTREE_GET_COUNT p) ++ kvsR) lo hi dlo

/-- The active deepest node together with its (existential) page and
child contents. -/
def DeepNode (st : Nat → Option Page) (N lev : Nat) (ap : Nat → Nat) (M : Nat)
    (kvs : List KV) (lo hi : Nat) : Prop :=
  ∃ (p : Page) (kvss : Nat → List KV),
    DeepFrame st N lev ap M p kvss lo hi ∧ kvs = kvCat kvss (SBTREE_GET_COUNT p)

/-- The smallest key that can still arrive at the index: the first write
buffer key if the buffer is occupied, otherwise one past the last flushed
key (`sbtreeFlush` uses `maxkey + 1` as its separator). -/
def bufLo (kvsF kvsB : List KV) : Nat :=
  match kvsB with
  | kv :: _ => kv.1
  | [] =>
    match kvsF.getLast? with
    | some kv => kv.1 + 1
    | none => 1

/-- Configuration sanity: at least two pool slots, at least one record
per leaf and per interior node, and counts small enough for the role
flags of the count field. -/
def CfgOK (s : SB) : Prop :=
  2 ≤ s.numPages ∧ 1 ≤ s.maxRecordsPerPage ∧ s.maxRecordsPerPage < 10000 ∧
  1 ≤ s.maxInteriorRecordsPerPage ∧ s.maxInteriorRecordsPerPage + 2 < 2768

/-- Round-trip invariant: the state represents the flushed records
`kvsF` (in the tree) and the buffered records `kvsB` (in the slot-0 write
buffer), all keys strictly increasing, with the active path split into a
`SpineTo` zipper and the deepest node. -/
def TreeInv (s : SB) (kvsF kvsB : List KV) : Prop :=
  PoolInv s ∧ CfgOK s ∧ 1 ≤ s.levels ∧ s.levels ≤ s.nextPageWriteId ∧
  LeafRep (s.slots 0) kvsB ∧ kvsB.length ≤ s.maxRecordsPerPage ∧
  kvSorted (kvsF ++ kvsB) ∧ keysLT (kvsF ++ kvsB) 2147483647 ∧
  ∃ (kvsT kvsD : List KV) (dlo : Nat),
    kvsF = kvsT ++ kvsD ∧
    SpineTo s.storage s.nextPageWriteId s.levels s.activePath s.maxInteriorRecordsPerPage
      1 0 (s.levels - 1) kvsT 0 (bufLo kvsF kvsB) dlo ∧
    DeepNode s.storage s.nextPageWriteId s.levels s.activePath s.maxInteriorRecordsPerPage
      kvsD dlo (bufLo kvsF kvsB)

/-- The configuration fields, which no operation ever changes. -/
def CfgFrame (s t : SB) : Prop :=
  t.pageSize = s.pageSize ∧ t.numPages = s.numPages ∧ t.keySize = s.keySize ∧
  t.dataSize = s.dataSize ∧ t.recordSize = s.recordSize ∧ t.headerSize = s.headerSize ∧
  t.maxRecordsPerPage = s.maxRecordsPerPage ∧
  t.maxInteriorRecordsPerPage = s.maxInteriorRecordsPerPage

/-- Write the page `pg` through the slot-0 write buffer and record the
new physical page as the active node of level `l` — the common tail of
every branch of the `sbtreeUpdateIndex` level loop (`sbtree.c` lines
283-284, 300-303, 341-344). -/
def writeAt (s : SB) (l : Nat) (pg : Page) : SB :=
  let s1 := { s with slots := upd s.slots 0 pg }
  let r := writePage s1 0
  { r.1 with activePath := upd r.1.activePath l r.2 }

/-- The absorbed (non-full) node produced by `sbtreeUpdateIndex` lines
305-345: store the separator (if a key slot is free), link the new child,
patch the previous version of the changed child below, and bump the
count. -/
def absorbPage (s : SB) (p : Page) (minkey key : Nat) (l pageNum : Nat)
    (prevPageNum : Int) : Page :=
  let count := SBTREE_GET_COUNT p
  let p1 :=
    if count < s.maxInteriorRecordsPerPage then
      if l = s.levels - 1 then { p with keys := upd p.keys count key }
      else { p with keys := upd p.keys count minkey }
    else p
  let p2 :=
    if l = 0 ∧ s.levels > 1 then
      let b := { p1 with ptrs := upd p1.ptrs (count + 1) pageNum }
      if count > 0 ∧ prevPageNum ≠ -1 then
        { b with ptrs := upd b.ptrs count (wrap32 prevPageNum) }
      else b
    else
      if prevPageNum ≠ -1 then
        let b := { p1 with ptrs := upd p1.ptrs count (wrap32 prevPageNum) }
        { b with ptrs := upd b.ptrs (count + 1) pageNum }
      else { p1 with ptrs := upd p1.ptrs count pageNum }
  SBTREE_INC_COUNT p2

/-- The full node with its trailing pointer patched to the final version
of its last child (`sbtree.c` lines 280-282). -/
def patchPage (p : Page) (prevPageNum : Int) : Page :=
  { p with ptrs := upd p.ptrs (SBTREE_GET_COUNT p) (wrap32 prevPageNum) }

/-- A freshly created interior node (`sbtree.c` lines 286-298): zeroed,
marked interior, at the deepest level seeded with one separator, and
pointing at the new child. -/
def newNodePage (dataSize levels : Nat) (key : Nat) (l pageNum : Nat) : Page :=
  let b := SBTREE_SET_INTERIOR (zeroPage dataSize)
  let b :=
    if l = levels - 1 then SBTREE_INC_COUNT { b with keys := upd b.keys 0 key }
    else b
  { b with ptrs := upd b.ptrs 0 pageNum }

/-- Validity of an operation sequence for the round-trip claim, tracking
the lower bound `b` for the next key and the write-buffer occupancy `c`:
keys are supplied in strictly increasing order (and fit an `int32_t`)
and no flush hits an empty write buffer (which would read the max key out
of range — claim C10). -/
def okOps (R : Nat) : List Op → Nat → Nat → Prop
  | [], _, _ => True
  | Op.put k _ :: rest, b, c =>
    b ≤ k ∧ k < 2147483647 ∧ okOps R rest (k + 1) (if R ≤ c then 1 else c + 1)
  | Op.flush :: rest, b, c => c ≠ 0 ∧ okOps R rest b 0

/-- The records inserted by the `put` operations of a sequence, with
their data as stored (padded or truncated to `dataSize` bytes). -/
def putsOf (dataSize : Nat) : List Op → List KV
  | [] => []
  | Op.put k d :: rest => ((k, padTrunc dataSize d) : KV) :: putsOf dataSize rest
  | _ :: rest => putsOf dataSize rest

/-! # Theorems -/

/-- C3: for every interior node reached during a descent,
`getChildPageId(node, nodeId, level, childIdx)` returns
`activePath[level+1]` when `childIdx` equals the node's count,
`level < levels-1`, and `nodeId = activePath[level]`; otherwise it returns
the raw stored child pointer, except that it returns `-1` when the raw
pointer is 0 and `childIdx` is the trailing (`count`-th) slot. -/
theorem getChildPageId_spec (s : SB) (buf : Page) (pageId level : Nat)
    (childNum : Int) :
    (childNum = (SBTREE_GET_COUNT buf : Int) ∧
        (level : Int) < (s.levels : Int) - 1 ∧ pageId = s.activePath level →
      getChildPageId s buf pageId level childNum = (s.activePath (level + 1) : Int)) ∧
    (¬(childNum = (SBTREE_GET_COUNT buf : Int) ∧
        (level : Int) < (s.levels : Int) - 1 ∧ pageId = s.activePath level) →
      ((buf.ptrs childNum.toNat = 0 ∧ childNum = (SBTREE_GET_COUNT buf : Int)) →
        getChildPageId s buf pageId level childNum = -1) ∧
      (¬(buf.ptrs childNum.toNat = 0 ∧ childNum = (SBTREE_GET_COUNT buf : Int)) →
        getChildPageId s buf pageId level childNum = (buf.ptrs childNum.toNat : Int))) := by
  unfold getChildPageId
  refine ⟨fun h => by rw [if_pos h], fun h => ⟨fun h2 => ?_, fun h2 => ?_⟩⟩
  · rw [if_neg h]; exact if_pos h2
  · rw [if_neg h]; exact if_neg h2

/-- Witness for C3: a concrete active-path remap.  In a 3-level tree with
`activePath i = i`, asking node 1 (at level 1, on the active path) for its
trailing child (index 0 = its count) yields `activePath[2] = 2`. -/
theorem getChildPageId_spec_witness :
    getChildPageId { c7Base with levels := 3, activePath := fun i => i }
      (zeroPage 4) 1 1 0 = 2 :=
  (getChildPageId_spec { c7Base with levels := 3, activePath := fun i => i }
      (zeroPage 4) 1 1 0).1 ⟨rfl, by decide, rfl⟩

/-- C8: the default key comparator installed by `sbtreeInit` is the sign
of the wrapping signed 32-bit difference, so there are unsigned keys
`a < b` (here with `b ≥ 2^31`) that it reports as `a > b`, and an
unsigned key `≥ 2^31` that it orders below 0: the order is signed, not
the unsigned order of the interface. -/
theorem uint32Compare_signed_order :
    (∃ a b : Nat, a < 2 ^ 32 ∧ b < 2 ^ 32 ∧ a < b ∧ 2 ^ 31 ≤ b ∧
      uint32Compare a b = 1) ∧
    uint32Compare 2147483648 0 = -1 :=
  ⟨⟨0, 3000000000, by norm_num, by norm_num, by norm_num, by norm_num,
    by decide⟩, by decide⟩

/-- C10: `sbtreeFlush` reads the max key at byte offset
`recordSize*(count-1) + headerSize` of the write buffer.  With at least
one record this lies inside the record area (the key fits before the end
of record `count-1`); with `count = 0` the offset is
`headerSize - recordSize`, before the record area (and, since records are
nonempty, before the header's end). -/
theorem flushMaxKeyOffset_bounds (headerSize recordSize keySize dataSize count : Nat)
    (hrec : recordSize = keySize + dataSize) (hkey : 0 < keySize) :
    (1 ≤ count →
      (headerSize : Int) ≤ flushMaxKeyOffset headerSize recordSize count ∧
      flushMaxKeyOffset headerSize recordSize count + keySize ≤
        (headerSize : Int) + count * recordSize) ∧
    (count = 0 →
      flushMaxKeyOffset headerSize recordSize count =
        (headerSize : Int) - recordSize ∧
      flushMaxKeyOffset headerSize recordSize count < headerSize) := by
  unfold flushMaxKeyOffset
  constructor
  · intro hc
    have hc' : (1 : Int) ≤ (count : Int) := by exact_mod_cast hc
    have hk' : (keySize : Int) ≤ (recordSize : Int) := by
      simp only [hrec]; push_cast; omega
    constructor
    · nlinarith [Int.natCast_nonneg recordSize]
    · nlinarith [Int.natCast_nonneg recordSize]
  · intro hc
    subst hc
    have hr : 0 < recordSize := by omega
    constructor
    · push_cast; ring
    · have : (0 : Int) < recordSize := by exact_mod_cast hr
      push_cast; nlinarith

/-- Witness for C10: the test configuration (record size 16, header 6):
an empty buffer gives offset `-10`, outside the record area. -/
theorem flushMaxKeyOffset_bounds_witness :
    flushMaxKeyOffset 6 16 0 = (6 : Int) - 16 ∧ flushMaxKeyOffset 6 16 0 < 6 :=
  (flushMaxKeyOffset_bounds 6 16 4 12 0 (by norm_num) (by norm_num)).2 rfl

/-- Counterexample to C4 as stated: one `put` then two consecutive
flushes; the second flush writes pages, so the write counter and
`nextPageWriteId` after it differ from their values after the first
flush (3 versus 5 for both). -/
theorem flush_twice_not_idempotent :
    c4StateA.numWrites = 3 ∧ c4StateA.nextPageWriteId = 3 ∧
    c4StateB.numWrites = 5 ∧ c4StateB.nextPageWriteId = 5 := by
  refine ⟨by decide, by decide, by decide, by decide⟩

/-- C5: the code has no tree-capacity check.  On a state with 8 levels
whose active-path node is full at every level and a full write buffer,
`put` succeeds (returns 0, not an `OutOfTreeCapacity` error), grows the
tree to 9 levels, and the active-path shift writes `activePath[8]` —
an out-of-bounds store for the declared array (`id_t activePath[5]` in
`sbtree.h` line 111; `MAX_LEVEL = 8` in the specification). -/
theorem put_overflows_tree_capacity :
    c5State.levels = 8 ∧ c5After.2 = 0 ∧ c5After.1.levels = 9 ∧
    c5After.1.activePath 8 ≠ c5State.activePath 8 := by
  refine ⟨rfl, by decide, by decide, by decide⟩

/-- C7 fails on the code: pageSize 30, 4 buffer slots (≥ 3), keys 0..9,
flush, full-range iterator.  After three `next` calls slot 1 holds the
root (page 9) and no round-robin replacement has run; the fourth `next`
misses on the next leaf with every slot `≥ 2` occupied, and the
round-robin loop — whose cursor was initialized to 1 by `dbbufferInit` —
picks slot 1, evicting the root and loading leaf page 3 there. -/
theorem roundRobin_evicts_root_slot :
    3 ≤ c7Base.numPages ∧
    c7Step3.1.status 1 = c7Step3.1.activePath 0 ∧
    c7Step3.1.rrLog = [] ∧
    c7Step4.1.rrLog = [1] ∧
    c7Step4.1.status 1 = 3 ∧
    c7Step4.1.activePath 0 = 9 := by
  refine ⟨by decide, by decide, by decide, by decide, by decide, by decide⟩
/-- `writePage` advances the physical write counter by one. -/
@[simp] theorem writePage_nextPageWriteId (s : SB) (b : Nat) :
    (writePage s b).1.nextPageWriteId = s.nextPageWriteId + 1 := rfl

/-- `writePage` advances the write statistic by one. -/
@[simp] theorem writePage_numWrites (s : SB) (b : Nat) :
    (writePage s b).1.numWrites = s.numWrites + 1 := rfl

/-- `writePage` returns the pre-increment write counter reduced to its
low 32 bits (the value of the C `uint32_t` post-increment). -/
@[simp] theorem writePage_ret (s : SB) (b : Nat) :
    (writePage s b).2 = s.nextPageWriteId % 4294967296 := rfl

/-- `writePage` appends the written physical page number (the wrapped
counter) to the ghost log. -/
@[simp] theorem writePage_writeLog (s : SB) (b : Nat) :
    (writePage s b).1.writeLog = s.writeLog ++ [s.nextPageWriteId % 4294967296] := rfl

/-- `readPageBuffer` leaves the write counter unchanged. -/
@[simp] theorem readPageBuffer_nextPageWriteId (s : SB) (p b : Nat) :
    (readPageBuffer s p b).nextPageWriteId = s.nextPageWriteId := rfl

/-- `readPageBuffer` leaves the write statistic unchanged. -/
@[simp] theorem readPageBuffer_numWrites (s : SB) (p b : Nat) :
    (readPageBuffer s p b).numWrites = s.numWrites := rfl

/-- `initBufferPage` leaves the write counter unchanged. -/
@[simp] theorem initBufferPage_nextPageWriteId (s : SB) (b : Nat) :
    (initBufferPage s b).nextPageWriteId = s.nextPageWriteId := rfl

/-- `initBufferPage` leaves the write statistic unchanged. -/
@[simp] theorem initBufferPage_numWrites (s : SB) (b : Nat) :
    (initBufferPage s b).numWrites = s.numWrites := rfl

/-- Shifted ranges: `[0..n] + k = k :: ([0..n) + (k+1))`. -/
theorem range_map_add_succ (n k : Nat) :
    (List.range (n + 1)).map (· + k) = k :: (List.range n).map (· + (k + 1)) := by
  rw [List.range_succ_eq_map]
  simp only [List.map_cons, List.map_map, Nat.zero_add]
  refine congrArg _ (List.map_congr_left fun i _ => ?_)
  simp only [Function.comp_apply, Nat.succ_eq_add_one]
  omega

/-- Shifted ranges under a modulus: prepending the head write. -/
theorem range_map_add_mod_succ (n k : Nat) :
    (List.range (n + 1)).map (fun i => (i + k) % 4294967296) =
      k % 4294967296 :: (List.range n).map (fun i => (i + (k + 1)) % 4294967296) := by
  have h := congrArg (List.map (· % 4294967296)) (range_map_add_succ n k)
  simpa [List.map_map, Function.comp] using h

/-- Write sequences return consecutive page numbers from the current
counter, reduced to 32 bits, append exactly those numbers to the storage
write log, and advance the (total) counter by the number of writes. -/
theorem runWrites_ids : ∀ (bufs : List Nat) (s : SB),
    (runWrites s bufs).2 =
      (List.range bufs.length).map (fun i => (i + s.nextPageWriteId) % 4294967296) ∧
    (runWrites s bufs).1.writeLog = s.writeLog ++
      (List.range bufs.length).map (fun i => (i + s.nextPageWriteId) % 4294967296) ∧
    (runWrites s bufs).1.nextPageWriteId = s.nextPageWriteId + bufs.length := by
  intro bufs
  induction bufs with
  | nil => intro s; simp [runWrites]
  | cons b bs ih =>
    intro s
    obtain ⟨h1, h2, h3⟩ := ih (writePage s b).1
    rw [writePage_nextPageWriteId] at h1 h2 h3
    rw [writePage_writeLog] at h2
    refine ⟨?_, ?_, ?_⟩
    · show (writePage s b).2 :: (runWrites (writePage s b).1 bs).2 = _
      rw [writePage_ret, h1, List.length_cons, range_map_add_mod_succ]
    · show (runWrites (writePage s b).1 bs).1.writeLog = _
      rw [h2, List.length_cons, range_map_add_mod_succ]
      simp
    · show (runWrites (writePage s b).1 bs).1.nextPageWriteId = _
      rw [h3, List.length_cons]
      omega

/-- C6 (amended): from an initialized buffer, a sequence of at most 2^32
`writePage` calls returns the physical page numbers `0, 1, 2, …` in order
— no gaps, no repeats — and the storage back-end is handed exactly those
page numbers, each once (the ghost write log equals `0, …, n-1`, so no
physical page is written more than once).  The bound is tight: the
`uint32_t` write counter wraps at 2^32, after which physical page numbers
repeat (`writePage_repeats_after_wrap`). -/
theorem writePage_monotonic_ids (s : SB) (bufs : List Nat)
    (hlen : bufs.length ≤ 4294967296) :
    (runWrites (dbbufferInit s) bufs).2 = List.range bufs.length ∧
    (runWrites (dbbufferInit s) bufs).1.writeLog = List.range bufs.length ∧
    ((runWrites (dbbufferInit s) bufs).2).Nodup := by
  obtain ⟨h1, h2, h3⟩ := runWrites_ids bufs (dbbufferInit s)
  have hz : (dbbufferInit s).nextPageWriteId = 0 := rfl
  have hw : (dbbufferInit s).writeLog = [] := rfl
  rw [hz] at h1 h2
  rw [hw] at h2
  have hid : (List.range bufs.length).map (fun i => (i + 0) % 4294967296) =
      List.range bufs.length := by
    conv_rhs => rw [← List.map_id (List.range bufs.length)]
    refine List.map_congr_left fun i hi => ?_
    rw [List.mem_range] at hi
    simp only [id_eq]
    omega
  rw [hid] at h1 h2
  rw [List.nil_append] at h2
  refine ⟨h1, h2, ?_⟩
  rw [h1]
  exact List.nodup_range _

/-- Witness: three `writePage` calls from an initialized buffer return
the physical page numbers `0, 1, 2` in order, with no repeats. -/
theorem writePage_monotonic_ids_witness :
    (runWrites (dbbufferInit (sbtreeInit 30 4 4 4)) [0, 0, 0]).2 = List.range 3 ∧
    ((runWrites (dbbufferInit (sbtreeInit 30 4 4 4)) [0, 0, 0]).2).Nodup :=
  ⟨(writePage_monotonic_ids (sbtreeInit 30 4 4 4) [0, 0, 0] (by decide)).1,
   (writePage_monotonic_ids (sbtreeInit 30 4 4 4) [0, 0, 0] (by decide)).2.2⟩

/-- C6 fails on the code beyond 2^32 writes: `nextPageWriteId` is a
`uint32_t` that wraps, so the 2^32+1st `writePage` call from an
initialized buffer returns physical page number 0 again — the returned
page numbers are not duplicate-free and page 0 is written twice. -/
theorem writePage_repeats_after_wrap :
    ¬ ((runWrites (dbbufferInit (sbtreeInit 30 4 4 4))
        (List.replicate 4294967297 0)).2).Nodup := by
  obtain ⟨h1, -, -⟩ := runWrites_ids (List.replicate 4294967297 0)
    (dbbufferInit (sbtreeInit 30 4 4 4))
  have hz : (dbbufferInit (sbtreeInit 30 4 4 4)).nextPageWriteId = 0 := rfl
  rw [hz, List.length_replicate] at h1
  rw [h1]
  intro hnd
  have hinj := (List.nodup_map_iff_inj_on (List.nodup_range 4294967297)).mp hnd
  have h4 := hinj 0 (by rw [List.mem_range]; omega) 4294967296
    (by rw [List.mem_range]; omega) (by omega)
  omega

/-- Every loop iteration of `sbtreeUpdateIndex` performs at least one
`writePage` (both counters advance by at least 1). -/
theorem updateIndexStep_writes (s : SB) (minkey key l pageNum : Nat) (prev : Int) :
    s.nextPageWriteId + 1 ≤ (updateIndexStep s minkey key l pageNum prev).1.nextPageWriteId ∧
    s.numWrites + 1 ≤ (updateIndexStep s minkey key l pageNum prev).1.numWrites := by
  unfold updateIndexStep updateIndexBody
  dsimp only
  split
  · constructor <;>
    · split <;> split <;>
        simp [writePage, readPageBuffer, initBufferPage]
  · constructor <;> simp [writePage, readPageBuffer, initBufferPage]

/-- The whole level loop of `sbtreeUpdateIndex` performs at least one
`writePage`. -/
theorem updateIndexLoop_writes : ∀ (l : Nat) (s : SB) (minkey key pageNum : Nat)
    (prev : Int),
    s.nextPageWriteId + 1 ≤ (updateIndexLoop s minkey key pageNum prev l).1.nextPageWriteId ∧
    s.numWrites + 1 ≤ (updateIndexLoop s minkey key pageNum prev l).1.numWrites := by
  intro l
  induction l with
  | zero =>
    intro s mk k pn pv
    obtain ⟨h1, h2⟩ := updateIndexStep_writes s mk k 0 pn pv
    rcases hstep : updateIndexStep s mk k 0 pn pv with ⟨s', r⟩
    rw [hstep] at h1 h2
    rw [updateIndexLoop, hstep]
    cases r <;> exact ⟨h1, h2⟩
  | succ l ih =>
    intro s mk k pn pv
    obtain ⟨h1, h2⟩ := updateIndexStep_writes s mk k (l + 1) pn pv
    rcases hstep : updateIndexStep s mk k (l + 1) pn pv with ⟨s', r⟩
    rw [hstep] at h1 h2
    rw [updateIndexLoop, hstep]
    cases r with
    | none => exact ⟨h1, h2⟩
    | some c =>
      obtain ⟨g1, g2⟩ := ih s' mk k c.1 c.2
      dsimp only at h1 h2 ⊢
      exact ⟨by omega, by omega⟩

/-- `sbtreeUpdateIndex` performs at least one `writePage`. -/
theorem sbtreeUpdateIndex_writes (s : SB) (minkey key pageNum : Nat) :
    s.nextPageWriteId + 1 ≤ (sbtreeUpdateIndex s minkey key pageNum).1.nextPageWriteId ∧
    s.numWrites + 1 ≤ (sbtreeUpdateIndex s minkey key pageNum).1.numWrites := by
  obtain ⟨h1, h2⟩ := updateIndexLoop_writes (s.levels - 1) s minkey key pageNum (-1)
  rcases hloop : updateIndexLoop s minkey key pageNum (-1) (s.levels - 1) with ⟨s', r⟩
  rw [hloop] at h1 h2
  unfold sbtreeUpdateIndex
  rw [hloop]
  cases r with
  | none => exact ⟨h1, h2⟩
  | some p =>
    dsimp only at h1 h2 ⊢
    constructor <;> simp [writePage, initBufferPage] <;> omega

/-- `sbtreeFlush` unconditionally appends the write buffer and updates
the index: both the write counter and the write statistic grow by at
least 2 on every call (the leaf write plus at least one index write). -/
theorem sbtreeFlush_writes (s : SB) :
    s.nextPageWriteId + 2 ≤ (sbtreeFlush s).1.nextPageWriteId ∧
    s.numWrites + 2 ≤ (sbtreeFlush s).1.numWrites := by
  unfold sbtreeFlush
  dsimp only
  obtain ⟨h1, h2⟩ := sbtreeUpdateIndex_writes (writePage s 0).1
    (((writePage s 0).1.slots 0).recKey 0)
    (wrap32 (toInt32 (((writePage s 0).1.slots 0).recKey
      ((SBTREE_GET_COUNT ((writePage s 0).1.slots 0) : Int) - 1)) + 1))
    (writePage s 0).2
  rw [writePage_ret, writePage_nextPageWriteId] at h1
  rw [writePage_ret, writePage_numWrites] at h2
  constructor <;> split <;> dsimp only <;> simp [initBufferPage] <;> omega

/-- C4 amended: calling `flush` twice in a row with no intervening `put`
does write new pages the second time — flush unconditionally appends the
write buffer and updates the index — so the buffer's write counter and
`nextPageWriteId` after the second flush strictly exceed (by at least 2)
their values after the first flush. -/
theorem flush_twice_writes_again (s : SB) :
    (sbtreeFlush s).1.nextPageWriteId + 2 ≤
      (sbtreeFlush (sbtreeFlush s).1).1.nextPageWriteId ∧
    (sbtreeFlush s).1.numWrites + 2 ≤ (sbtreeFlush (sbtreeFlush s).1).1.numWrites :=
  sbtreeFlush_writes (sbtreeFlush s).1

/-- `ReadFrame` is reflexive. -/
theorem readFrame_refl (s : SB) : ReadFrame s s := by
  unfold ReadFrame; exact ⟨rfl, rfl, rfl, rfl, rfl, rfl, rfl, rfl, rfl, rfl, rfl,
    rfl, rfl, rfl, rfl, rfl⟩

/-- `ReadFrame` composes. -/
theorem readFrame_trans {s t u : SB} (h1 : ReadFrame s t) (h2 : ReadFrame t u) :
    ReadFrame s u := by
  obtain ⟨a1, a2, a3, a4, a5, a6, a7, a8, a9, a10, a11, a12, a13, a14, a15, a16⟩ := h1
  obtain ⟨b1, b2, b3, b4, b5, b6, b7, b8, b9, b10, b11, b12, b13, b14, b15, b16⟩ := h2
  exact ⟨b1.trans a1, b2.trans a2, b3.trans a3, b4.trans a4, b5.trans a5,
    b6.trans a6, b7.trans a7, b8.trans a8, b9.trans a9, b10.trans a10,
    b11.trans a11, b12.trans a12, b13.trans a13, b14.trans a14, b15.trans a15,
    b16.trans a16⟩

/-- Members of `(List.range n).drop k` are at least `k`. -/
theorem mem_drop_range_le {n k i : Nat} (h : i ∈ (List.range n).drop k) : k ≤ i := by
  rcases List.mem_iff_getElem.mp h with ⟨j, hj, rfl⟩
  simp [List.getElem_drop, List.getElem_range]

/-- A buffer hit names a slot in `[1, numPages)` holding the page. -/
theorem findHit_spec {s : SB} {p i : Nat} (h : findHit s p = some i) :
    1 ≤ i ∧ s.status i = p := by
  unfold findHit at h
  have hm := List.mem_of_find?_eq_some h
  have hp := List.find?_some h
  exact ⟨mem_drop_range_le hm, by simpa using hp⟩

/-- An empty-scan result is a slot `≥ 2`. -/
theorem emptyScan_spec {s : SB} {i : Nat} (h : emptyScan s = some i) : 2 ≤ i := by
  unfold emptyScan at h
  exact mem_drop_range_le (List.mem_of_find?_eq_some h)

/-- The round-robin loop never returns slot 0 when started past it. -/
theorem roundRobin_pos : ∀ (fuel : Nat) (s : SB) (i nbp : Nat), 1 ≤ i →
    1 ≤ (roundRobin s i nbp fuel).1 := by
  intro fuel
  induction fuel with
  | zero => intro s i nbp h; exact h
  | succ fuel ih =>
    intro s i nbp h
    rw [roundRobin]
    split
    · split
      · norm_num
      · exact ih s 3 2 (by omega)
    · split
      · simpa
      · exact ih s (i + 1) nbp (by omega)

/-- The round-robin loop keeps the cursor positive. -/
theorem roundRobin_nbp_pos : ∀ (fuel : Nat) (s : SB) (i nbp : Nat), 1 ≤ nbp →
    1 ≤ (roundRobin s i nbp fuel).2 := by
  intro fuel
  induction fuel with
  | zero => intro s i nbp h; exact h
  | succ fuel ih =>
    intro s i nbp h
    rw [roundRobin]
    split
    · split
      · norm_num
      · exact ih s 3 2 (by omega)
    · split
      · simpa
      · exact ih s (i + 1) nbp h

theorem readPage_spec (s : SB) (p : Nat) (h : BufInv s) :
    ReadFrame s (readPage s p).1 ∧ BufInv (readPage s p).1 ∧ 1 ≤ (readPage s p).2 := by
  obtain ⟨hmod, hnbp⟩ := h
  unfold readPage
  cases hf : findHit s p with
  | some i =>
    simp only [hf]
    exact ⟨⟨rfl, rfl, rfl, rfl, rfl, rfl, rfl, rfl, rfl, rfl, rfl, rfl, rfl, rfl,
      rfl, rfl⟩, ⟨hmod, hnbp⟩, (findHit_spec hf).1⟩
  | none =>
    simp only [hf]
    split
    next h2 =>
      dsimp only
      rw [if_neg (by simp [hmod])]
      refine ⟨⟨rfl, rfl, rfl, rfl, rfl, rfl, rfl, rfl, rfl, rfl, rfl, rfl, rfl,
        rfl, rfl, by simp [readPageBuffer, upd]⟩,
        ⟨fun j => by simp [readPageBuffer, upd, hmod j], hnbp⟩, le_refl 1⟩
    next h2 =>
      split
      next h3 =>
        dsimp only
        rw [if_neg (by simp [hmod])]
        refine ⟨⟨rfl, rfl, rfl, rfl, rfl, rfl, rfl, rfl, rfl, rfl, rfl, rfl, rfl,
          rfl, rfl, by simp [readPageBuffer, upd]⟩,
          ⟨fun j => by simp [readPageBuffer, upd, hmod j], hnbp⟩, le_refl 1⟩
      next h3 =>
        split
        next h4 =>
          dsimp only
          rw [if_neg (by simp [hmod])]
          refine ⟨⟨rfl, rfl, rfl, rfl, rfl, rfl, rfl, rfl, rfl, rfl, rfl, rfl, rfl,
            rfl, rfl, by simp [readPageBuffer, upd]⟩,
            ⟨fun j => by simp [readPageBuffer, upd, hmod j], hnbp⟩, by omega⟩
        next h4 =>
          cases he : emptyScan s with
          | some i =>
            have hi : 2 ≤ i := emptyScan_spec he
            simp only [he]
            rw [if_neg (by simp [hmod])]
            refine ⟨⟨rfl, rfl, rfl, rfl, rfl, rfl, rfl, rfl, rfl, rfl, rfl, rfl, rfl,
              rfl, rfl, by simp [readPageBuffer, upd]; omega⟩,
              ⟨fun j => by simp [readPageBuffer, upd, hmod j], hnbp⟩,
              by omega⟩
          | none =>
            have hi : 1 ≤ (roundRobin s s.nextBufferPage (s.nextBufferPage + 1)
                (2 * s.numPages + 4)).1 := roundRobin_pos _ s _ _ hnbp
            have hn2 : 1 ≤ (roundRobin s s.nextBufferPage (s.nextBufferPage + 1)
                (2 * s.numPages + 4)).2 := roundRobin_nbp_pos _ s _ _ (by omega)
            simp only [he]
            rw [if_neg (by simp [hmod])]
            refine ⟨⟨rfl, rfl, rfl, rfl, rfl, rfl, rfl, rfl, rfl, rfl, rfl, rfl, rfl,
              rfl, rfl, by simp [readPageBuffer, upd]; omega⟩,
              ⟨fun j => by simp [readPageBuffer, upd]; intro _; exact hmod j, hn2⟩,
              hi⟩

/-- The descent loop of `sbtreeGet` only reads pages: frame and
invariant. -/
theorem sbtreeGetDescend_spec : ∀ (r : Nat) (s : SB) (key nextId l : Nat),
    BufInv s →
    ReadFrame s (sbtreeGetDescend s key nextId l r).1 ∧
    BufInv (sbtreeGetDescend s key nextId l r).1 := by
  intro r
  induction r with
  | zero => intro s key nextId l h; exact ⟨readFrame_refl s, h⟩
  | succ r ih =>
    intro s key nextId l h
    obtain ⟨hf, hb, _⟩ := readPage_spec s nextId h
    rw [sbtreeGetDescend]
    split
    · exact ⟨hf, hb⟩
    · obtain ⟨hf2, hb2⟩ := ih (readPage s nextId).1 key _ (l + 1) hb
      exact ⟨readFrame_trans hf hf2, hb2⟩

/-- `sbtreeGet` only reads pages: frame and invariant. -/
theorem sbtreeGet_spec (s : SB) (key : Nat) (h : BufInv s) :
    ReadFrame s (sbtreeGet s key).1 ∧ BufInv (sbtreeGet s key).1 := by
  obtain ⟨hf, hb⟩ := sbtreeGetDescend_spec s.levels s key (s.activePath 0) 0 h
  unfold sbtreeGet
  dsimp only
  split
  · exact ⟨hf, hb⟩
  · obtain ⟨hf2, hb2, _⟩ := readPage_spec
      (sbtreeGetDescend s key (s.activePath 0) 0 s.levels).1 _ hb
    split
    · exact ⟨readFrame_trans hf hf2, hb2⟩
    · exact ⟨readFrame_trans hf hf2, hb2⟩

/-- `writePage` preserves the buffer invariant. -/
theorem writePage_BufInv {s : SB} (b : Nat) (h : BufInv s) :
    BufInv (writePage s b).1 := by
  obtain ⟨hmod, hnbp⟩ := h
  refine ⟨fun j => ?_, hnbp⟩
  show upd s.modified b NOT_MODIFIED_VAL j = NOT_MODIFIED_VAL
  unfold upd
  split
  · rfl
  · exact hmod j

/-- Updating the modified array with the not-modified sentinel keeps it
clean. -/
theorem upd_modified_all {m : Nat → Nat} (hm : ∀ j, m j = NOT_MODIFIED_VAL)
    (b : Nat) : ∀ j, upd m b NOT_MODIFIED_VAL j = NOT_MODIFIED_VAL := by
  intro j
  unfold upd
  split
  · rfl
  · exact hm j

/-- One `sbtreeUpdateIndex` iteration preserves the buffer invariant. -/
theorem updateIndexStep_BufInv (s : SB) (mk k l pn : Nat) (pv : Int)
    (h : BufInv s) : BufInv (updateIndexStep s mk k l pn pv).1 := by
  obtain ⟨hmod, hnbp⟩ := h
  unfold updateIndexStep updateIndexBody
  dsimp only
  split
  · split <;> split <;>
      refine ⟨fun j => ?_, hnbp⟩ <;>
        first
          | exact upd_modified_all hmod 0 j
          | exact upd_modified_all (upd_modified_all hmod 0) 0 j
  · refine ⟨fun j => ?_, hnbp⟩
    exact upd_modified_all hmod 0 j

/-- The `sbtreeUpdateIndex` loop preserves the buffer invariant. -/
theorem updateIndexLoop_BufInv : ∀ (l : Nat) (s : SB) (mk k pn : Nat) (pv : Int),
    BufInv s → BufInv (updateIndexLoop s mk k pn pv l).1 := by
  intro l
  induction l with
  | zero =>
    intro s mk k pn pv h
    have hs := updateIndexStep_BufInv s mk k 0 pn pv h
    rcases hstep : updateIndexStep s mk k 0 pn pv with ⟨s', r⟩
    rw [hstep] at hs
    rw [updateIndexLoop, hstep]
    cases r <;> exact hs
  | succ l ih =>
    intro s mk k pn pv h
    have hs := updateIndexStep_BufInv s mk k (l + 1) pn pv h
    rcases hstep : updateIndexStep s mk k (l + 1) pn pv with ⟨s', r⟩
    rw [hstep] at hs
    rw [updateIndexLoop, hstep]
    cases r with
    | none => exact hs
    | some c => exact ih s' mk k c.1 c.2 hs

/-- `sbtreeUpdateIndex` preserves the buffer invariant. -/
theorem sbtreeUpdateIndex_BufInv (s : SB) (mk k pn : Nat) (h : BufInv s) :
    BufInv (sbtreeUpdateIndex s mk k pn).1 := by
  have hl := updateIndexLoop_BufInv (s.levels - 1) s mk k pn (-1) h
  rcases hloop : updateIndexLoop s mk k pn (-1) (s.levels - 1) with ⟨s', r⟩
  rw [hloop] at hl
  unfold sbtreeUpdateIndex
  rw [hloop]
  cases r with
  | none => exact hl
  | some p =>
    obtain ⟨hmod, hnbp⟩ := hl
    dsimp only
    refine ⟨fun j => ?_, hnbp⟩
    exact upd_modified_all hmod 0 j

/-- `sbtreePut` preserves the buffer invariant. -/
theorem sbtreePut_BufInv (s : SB) (key : Nat) (data : List Nat) (h : BufInv s) :
    BufInv (sbtreePut s key data).1 := by
  unfold sbtreePut
  dsimp only
  by_cases hc : SBTREE_GET_COUNT (s.slots 0) ≥ s.maxRecordsPerPage
  · rw [if_pos hc]
    have hw := writePage_BufInv 0 h
    have hu := sbtreeUpdateIndex_BufInv (writePage s 0).1
      (((writePage s 0).1.slots 0).recKey 0) key (writePage s 0).2 hw
    by_cases he : (sbtreeUpdateIndex (writePage s 0).1
        (((writePage s 0).1.slots 0).recKey 0) key (writePage s 0).2).2 ≠ 0
    · rw [if_pos he]
      exact hu
    · rw [if_neg he]
      exact ⟨fun j => hu.1 j, hu.2⟩
  · rw [if_neg hc]
    exact ⟨fun j => h.1 j, h.2⟩

/-- `sbtreeFlush` preserves the buffer invariant. -/
theorem sbtreeFlush_BufInv (s : SB) (h : BufInv s) :
    BufInv (sbtreeFlush s).1 := by
  unfold sbtreeFlush
  dsimp only
  have hw := writePage_BufInv 0 h
  have hu := sbtreeUpdateIndex_BufInv (writePage s 0).1
    (((writePage s 0).1.slots 0).recKey 0)
    (wrap32 (toInt32 (((writePage s 0).1.slots 0).recKey
      ((SBTREE_GET_COUNT ((writePage s 0).1.slots 0) : Int) - 1)) + 1))
    (writePage s 0).2 hw
  split
  next => exact hu
  next => exact ⟨fun j => hu.1 j, hu.2⟩

/-- The iterator-initialization descent only reads pages. -/
theorem initIteratorLoop_BufInv : ∀ (r : Nat) (s : SB) (it : Iter) (nextId l : Nat),
    BufInv s → BufInv (initIteratorLoop s it nextId l r).1 := by
  intro r
  induction r with
  | zero => intro s it nextId l h; exact h
  | succ r ih =>
    intro s it nextId l h
    obtain ⟨_, hb, _⟩ := readPage_spec s nextId h
    rw [initIteratorLoop]
    dsimp only
    split
    · exact hb
    · exact ih _ _ _ _ hb

/-- `sbtreeInitIterator` preserves the buffer invariant. -/
theorem sbtreeInitIterator_BufInv (s : SB) (a b : Nat) (h : BufInv s) :
    BufInv (sbtreeInitIterator s a b).1 := by
  unfold sbtreeInitIterator
  dsimp only
  have hl := initIteratorLoop_BufInv s.levels s
    { minKey := a, maxKey := b, activeIteratorPath := fun _ => 0,
      lastIterRec := fun _ => 0, currentBuffer := none } (s.activePath 0) 0 h
  split
  · exact hl
  · obtain ⟨_, hb, _⟩ := readPage_spec
      (initIteratorLoop s
        { minKey := a, maxKey := b, activeIteratorPath := fun _ => 0,
          lastIterRec := fun _ => 0, currentBuffer := none }
        (s.activePath 0) 0 s.levels).1
      (initIteratorLoop s
        { minKey := a, maxKey := b, activeIteratorPath := fun _ => 0,
          lastIterRec := fun _ => 0, currentBuffer := none }
        (s.activePath 0) 0 s.levels).2.2.toNat hl
    exact hb

/-- The upward scan of `sbtreeNext` only reads pages. -/
theorem nextUpLoop_BufInv : ∀ (f : Nat) (s : SB) (it : Iter),
    BufInv s → BufInv (nextUpLoop s it f).1 := by
  intro f
  induction f with
  | zero => intro s it h; exact h
  | succ f ih =>
    intro s it h
    obtain ⟨_, hb, _⟩ := readPage_spec s (it.activeIteratorPath f) h
    rw [nextUpLoop]
    split <;> split <;> first | exact hb | exact ih _ _ hb

/-- The downward re-descent of `sbtreeNext` only reads pages. -/
theorem nextDownLoop_BufInv : ∀ (r : Nat) (s : SB) (it : Iter) (slot l : Nat),
    BufInv s → BufInv (nextDownLoop s it slot l r).1 := by
  intro r
  induction r with
  | zero => intro s it slot l h; exact h
  | succ r ih =>
    intro s it slot l h
    rw [nextDownLoop]
    split
    · exact h
    · obtain ⟨_, hb, _⟩ := readPage_spec s _ h
      exact ih _ _ _ _ hb

/-- The page-advance step of `sbtreeNext` only reads pages. -/
theorem nextAdvance_BufInv (s : SB) (it : Iter) (h : BufInv s) :
    BufInv (nextAdvance s it).1 := by
  unfold nextAdvance
  have hu := nextUpLoop_BufInv s.levels s it h
  rcases hup : nextUpLoop s it s.levels with ⟨s1, it1, r⟩
  rw [hup] at hu
  cases r with
  | none => exact hu
  | some c =>
    obtain ⟨l, slot⟩ := c
    have hd := nextDownLoop_BufInv (s1.levels - l) s1 it1 slot l hu
    rcases hdn : nextDownLoop s1 it1 slot l (s1.levels - l) with ⟨s2, it2, r2⟩
    rw [hdn] at hd
    dsimp only
    rw [hdn]
    cases r2 with
    | none => exact hd
    | some leafSlot => exact hd

/-- The record loop of `sbtreeNext` only reads pages. -/
theorem sbtreeNextLoop_BufInv : ∀ (f : Nat) (s : SB) (it : Iter) (slot : Nat),
    BufInv s → BufInv (sbtreeNextLoop s it slot f).1 := by
  intro f
  induction f with
  | zero => intro s it slot h; exact h
  | succ f ih =>
    intro s it slot h
    rw [sbtreeNextLoop]
    dsimp only
    by_cases hcnt : (SBTREE_GET_COUNT (s.slots slot) : Int) ≤ it.lastIterRec s.levels
    · rw [if_pos hcnt]
      have ha := nextAdvance_BufInv s
        { minKey := it.minKey, maxKey := it.maxKey,
          activeIteratorPath := it.activeIteratorPath,
          lastIterRec := updI it.lastIterRec s.levels 0,
          currentBuffer := it.currentBuffer } h
      rcases hav : nextAdvance s
          { minKey := it.minKey, maxKey := it.maxKey,
            activeIteratorPath := it.activeIteratorPath,
            lastIterRec := updI it.lastIterRec s.levels 0,
            currentBuffer := it.currentBuffer } with ⟨s1, it1, r⟩
      rw [hav] at ha
      cases r with
      | none => exact ha
      | some slot1 =>
        dsimp only
        split
        · exact ih _ _ _ ha
        · split
          · exact ha
          · exact ha
    · rw [if_neg hcnt]
      dsimp only
      split
      · exact ih _ _ _ h
      · split
        · exact h
        · exact h

/-- `sbtreeNext` only reads pages: the buffer invariant is preserved. -/
theorem sbtreeNext_BufInv (s : SB) (it : Iter) (fuel : Nat) (h : BufInv s) :
    BufInv (sbtreeNext s it fuel).1 := by
  unfold sbtreeNext
  cases it.currentBuffer with
  | none => exact h
  | some slot => exact sbtreeNextLoop_BufInv fuel s it slot h

/-- Every reachable state has a clean buffer pool: `sbtree.c` never calls
`dbbufferSetModified`, so the writeback branch of `readPage` is
unreachable, and the round-robin cursor stays positive. -/
theorem reachable_BufInv {s : SB} (h : Reachable s) : BufInv s := by
  induction h with
  | init ps np ks ds =>
    refine ⟨fun j => ?_, ?_⟩
    · show upd _ 0 NOT_MODIFIED_VAL j = NOT_MODIFIED_VAL
      exact upd_modified_all (fun _ => rfl) 0 j
    · exact Nat.le_refl 1
  | put key data _ ih => exact sbtreePut_BufInv _ key data ih
  | flush _ ih => exact sbtreeFlush_BufInv _ ih
  | get key _ ih => exact (sbtreeGet_spec _ key ih).2
  | initIter a b _ ih => exact sbtreeInitIterator_BufInv _ a b ih
  | next it fuel _ ih => exact sbtreeNext_BufInv _ it fuel ih

/-- C9: `sbtreeGet` never writes a page.  In every reachable state the
tree has never marked a buffer slot modified (`reachable_BufInv`), so the
dirty-writeback branch of `readPage` cannot run, and after any `get` the
physical and logical id counters, the write counter and write log, the
slot-0 write buffer contents, the active path, and every page in storage
are unchanged. -/
theorem sbtreeGet_no_writes (s : SB) (key : Nat) (h : Reachable s) :
    (sbtreeGet s key).1.nextPageWriteId = s.nextPageWriteId ∧
    (sbtreeGet s key).1.nextPageId = s.nextPageId ∧
    (sbtreeGet s key).1.numWrites = s.numWrites ∧
    (sbtreeGet s key).1.writeLog = s.writeLog ∧
    (sbtreeGet s key).1.slots 0 = s.slots 0 ∧
    (sbtreeGet s key).1.activePath = s.activePath ∧
    (sbtreeGet s key).1.storage = s.storage := by
  obtain ⟨_, _, _, _, _, _, _, _, h9, h10, h11, h12, h13, _, h15, h16⟩ :=
    (sbtreeGet_spec s key (reachable_BufInv h)).1
  exact ⟨h11, h10, h12, h13, h16, h15, h9⟩

/-- Witness for C9: a `get` on a freshly initialized tree changes none of
the listed components. -/
theorem sbtreeGet_no_writes_witness :
    (sbtreeGet (sbtreeInit 38 5 4 4) 7).1.nextPageWriteId =
      (sbtreeInit 38 5 4 4).nextPageWriteId ∧
    (sbtreeGet (sbtreeInit 38 5 4 4) 7).1.nextPageId =
      (sbtreeInit 38 5 4 4).nextPageId ∧
    (sbtreeGet (sbtreeInit 38 5 4 4) 7).1.numWrites =
      (sbtreeInit 38 5 4 4).numWrites ∧
    (sbtreeGet (sbtreeInit 38 5 4 4) 7).1.writeLog =
      (sbtreeInit 38 5 4 4).writeLog ∧
    (sbtreeGet (sbtreeInit 38 5 4 4) 7).1.slots 0 =
      (sbtreeInit 38 5 4 4).slots 0 ∧
    (sbtreeGet (sbtreeInit 38 5 4 4) 7).1.activePath =
      (sbtreeInit 38 5 4 4).activePath ∧
    (sbtreeGet (sbtreeInit 38 5 4 4) 7).1.storage =
      (sbtreeInit 38 5 4 4).storage :=
  sbtreeGet_no_writes (sbtreeInit 38 5 4 4) 7 (Reachable.init 38 5 4 4)

/-! ### Arithmetic facts for the round-trip proof -/

/-- Small naturals reinterpret as themselves through `int16_t`. -/
theorem toInt16_small {n : Nat} (h : n < 32768) : toInt16 n = (n : Int) := by
  unfold toInt16
  rw [Nat.mod_eq_of_lt (by omega), if_pos (by omega)]

/-- Naturals below `2^31` reinterpret as themselves through `int32_t`. -/
theorem toInt32_small {n : Nat} (h : n < 2147483648) : toInt32 n = (n : Int) := by
  unfold toInt32
  rw [Nat.mod_eq_of_lt (by omega), if_pos (by omega)]

/-- Round trip of an `int32_t` value through a `uint32_t` store. -/
theorem toInt32_wrap32 {i : Int} (h1 : -2147483648 ≤ i) (h2 : i < 2147483648) :
    toInt32 (wrap32 i) = i := by
  unfold toInt32 wrap32
  split
  · omega
  · omega

/-- Storing a small natural through a `uint32_t` is the identity. -/
theorem wrap32_small {n : Nat} (h : n < 4294967296) : wrap32 (n : Int) = n := by
  unfold wrap32
  omega

/-- The default comparator orders keys below `2^31` like naturals. -/
theorem uint32Compare_char {a b : Nat} (ha : a < 2147483648) (hb : b < 2147483648) :
    uint32Compare a b = if a < b then -1 else if b < a then 1 else 0 := by
  unfold uint32Compare
  rw [toInt32_small ha, toInt32_small hb,
    toInt32_wrap32 (by omega) (by omega)]
  dsimp only
  split_ifs <;> omega

/-! ### Concatenation of child record lists -/

/-- Membership in a child concatenation. -/
theorem mem_kvCat {kvss : Nat → List KV} : ∀ {c : Nat} {kv : KV},
    kv ∈ kvCat kvss c ↔ ∃ j : Nat, j < c ∧ kv ∈ kvss j := by
  intro c
  induction c with
  | zero => intro kv; simp [kvCat]
  | succ c ih =>
    intro kv
    simp only [kvCat, List.mem_append, ih]
    constructor
    · rintro (⟨j, hj, hm⟩ | hm)
      · exact ⟨j, by omega, hm⟩
      · exact ⟨c, by omega, hm⟩
    · rintro ⟨j, hj, hm⟩
      by_cases hjc : j = c
      · exact Or.inr (hjc ▸ hm)
      · exact Or.inl ⟨j, by omega, hm⟩

/-- Child concatenation only depends on the children it mentions. -/
theorem kvCat_congr {kvss kvss2 : Nat → List KV} : ∀ {c : Nat},
    (∀ j : Nat, j < c → kvss j = kvss2 j) → kvCat kvss c = kvCat kvss2 c := by
  intro c
  induction c with
  | zero => intro _; rfl
  | succ c ih =>
    intro h
    unfold kvCat
    rw [ih (fun j hj => h j (by omega)), h c (by omega)]

/-- Weakening an upper key bound. -/
theorem keysLT_mono {kvs : List KV} {b b2 : Nat} (h : keysLT kvs b) (hb : b ≤ b2) :
    keysLT kvs b2 :=
  fun kv hm => lt_of_lt_of_le (h kv hm) hb

/-- Weakening a lower key bound. -/
theorem keysGE_mono {kvs : List KV} {b b2 : Nat} (h : keysGE kvs b) (hb : b2 ≤ b) :
    keysGE kvs b2 :=
  fun kv hm => le_trans hb (h kv hm)

/-! ### Binary search over interior separators -/

/-- Bracketing property of the interior binary-search loop: every
separator below the returned index is `≤ key`, every separator from the
returned index up to `m` is `> key`, and the result is at most `m`. -/
theorem interiorSearchLoop_bracket (p : Page) (key m : Nat)
    (hsort : ∀ i j : Nat, i < j → j < m → p.keys i < p.keys j)
    (hkb : ∀ i : Nat, i < m → p.keys i < 2147483648) (hkey : key < 2147483648) :
    ∀ (fuel first last : Nat), first ≤ last → last ≤ m →
      (∀ i : Nat, i < first → p.keys i ≤ key) →
      (∀ i : Nat, last ≤ i → i < m → key < p.keys i) →
      last - first < fuel →
      (∀ i : Nat, i < interiorSearchLoop p key first last fuel → p.keys i ≤ key) ∧
      (∀ i : Nat, interiorSearchLoop p key first last fuel ≤ i → i < m → key < p.keys i) ∧
      interiorSearchLoop p key first last fuel ≤ m := by
  intro fuel
  induction fuel with
  | zero => intro first last h1 h2 h3 h4 h5; omega
  | succ fuel ih =>
    intro first last h1 h2 h3 h4 h5
    rw [interiorSearchLoop]
    by_cases hfl : first < last
    · rw [if_pos hfl]
      dsimp only
      have hmlt : (first + last) / 2 < m := by omega
      rw [uint32Compare_char hkey (hkb _ hmlt)]
      by_cases hc1 : key < p.keys ((first + last) / 2)
      · rw [if_pos hc1, if_neg (by norm_num), if_neg (by norm_num)]
        refine ih first ((first + last) / 2) (by omega) (by omega) h3 ?_ (by omega)
        intro i hi1 hi2
        rcases Nat.eq_or_lt_of_le hi1 with h | h
        · exact h ▸ hc1
        · exact lt_trans hc1 (hsort _ _ h hi2)
      · rw [if_neg hc1]
        by_cases hc2 : p.keys ((first + last) / 2) < key
        · rw [if_pos hc2, if_pos (by norm_num)]
          refine ih ((first + last) / 2 + 1) last (by omega) h2 ?_ h4 (by omega)
          intro i hi
          rcases Nat.lt_succ_iff_lt_or_eq.mp hi with h | h
          · exact le_of_lt (lt_trans (hsort _ _ h hmlt) hc2)
          · exact h ▸ le_of_lt hc2
        · rw [if_neg hc2, if_neg (by norm_num), if_pos rfl]
          have hkeq : p.keys ((first + last) / 2) = key := by omega
          refine ⟨?_, ?_, by omega⟩
          · intro i hi
            rcases Nat.lt_succ_iff_lt_or_eq.mp hi with h | h
            · exact le_of_lt (hkeq ▸ hsort _ _ h hmlt)
            · exact le_of_eq (h ▸ hkeq)
          · intro i hi1 hi2
            exact hkeq ▸ hsort _ _ (by omega) hi2
    · rw [if_neg hfl]
      exact ⟨fun i hi => h3 i (by omega), h4, h2⟩

/-- `sbtreeSearchNode` on an interior node with `m = min count M`
strictly sorted separators returns the unique child index bracketing the
key. -/
theorem searchNode_interior (s : SB) (p : Page) (key m : Nat)
    (hint : SBTREE_IS_INTERIOR p = true)
    (hM : 1 ≤ s.maxInteriorRecordsPerPage)
    (hm : m = min (SBTREE_GET_COUNT p) s.maxInteriorRecordsPerPage)
    (hsort : ∀ i j : Nat, i < j → j < m → p.keys i < p.keys j)
    (hkb : ∀ i : Nat, i < m → p.keys i < 2147483648) (hkey : key < 2147483648) :
    ∃ j : Nat, sbtreeSearchNode s p key false = (j : Int) ∧ j ≤ m ∧
      (∀ i : Nat, i < j → p.keys i ≤ key) ∧
      (∀ i : Nat, j ≤ i → i < m → key < p.keys i) := by
  unfold sbtreeSearchNode
  rw [hint, if_pos rfl]
  by_cases h0 : SBTREE_GET_COUNT p = 0
  · rw [if_pos h0]
    refine ⟨0, by norm_num, by omega, ?_, ?_⟩
    · intro i hi
      omega
    · intro i hi1 hi2
      omega
  · rw [if_neg h0]
    by_cases h1 : SBTREE_GET_COUNT p = 1
    · rw [if_pos h1]
      have hm1 : m = 1 := by omega
      rw [uint32Compare_char hkey (hkb 0 (by omega))]
      by_cases hc : key < p.keys 0
      · rw [if_pos hc, if_pos (by norm_num)]
        refine ⟨0, by norm_num, by omega, ?_, ?_⟩
        · intro i hi
          omega
        · intro i hi1 hi2
          have hieq : i = 0 := by omega
          rw [hieq]
          exact hc
      · rw [if_neg hc]
        have hnn : ¬ ((if p.keys 0 < key then (1 : Int) else 0) < 0) := by
          split <;> norm_num
        rw [if_neg hnn]
        refine ⟨1, by norm_num, by omega, ?_, ?_⟩
        · intro i hi
          have hieq : i = 0 := by omega
          rw [hieq]
          omega
        · intro i hi1 hi2
          omega
    · rw [if_neg h1]
      have hlast : (if SBTREE_GET_COUNT p > s.maxInteriorRecordsPerPage
          then s.maxInteriorRecordsPerPage else SBTREE_GET_COUNT p) = m := by
        split <;> omega
      rw [hlast]
      obtain ⟨hb1, hb2, hb3⟩ := interiorSearchLoop_bracket p key m hsort hkb hkey
        (SBTREE_GET_COUNT p + 2) 0 m (by omega) (by omega)
        (fun i hi => by omega) (fun i hi1 hi2 => by omega) (by omega)
      exact ⟨interiorSearchLoop p key 0 m (SBTREE_GET_COUNT p + 2), rfl, hb3, hb1, hb2⟩

/-! ### Binary search over leaf records -/

/-- The leaf binary-search loop finds the index of a present key. -/
theorem leafSearchLoop_found (p : Page) (key n i0 : Nat)
    (hsk : ∀ i j : Nat, i < j → j < n → p.recKey (i : Int) < p.recKey (j : Int))
    (hkb : ∀ i : Nat, i < n → p.recKey (i : Int) < 2147483648)
    (hkey : key < 2147483648) (hi0 : i0 < n) (hfound : p.recKey (i0 : Int) = key) :
    ∀ (fuel : Nat) (first last : Int), 0 ≤ first → last < (n : Int) →
      first ≤ (i0 : Int) → (i0 : Int) ≤ last →
      last - first < (fuel : Int) →
      leafSearchLoop p key false first last fuel = (i0 : Int) := by
  intro fuel
  induction fuel with
  | zero => intro first last h1 h2 h3 h4 h5; omega
  | succ fuel ih =>
    intro first last h1 h2 h3 h4 h5
    rw [leafSearchLoop, if_pos (by omega : first ≤ last)]
    dsimp only
    rw [Int.tdiv_eq_ediv (by omega) (by omega)]
    have hmn : (((first + last) / 2).toNat : Int) = (first + last) / 2 := by omega
    have hmlt : ((first + last) / 2).toNat < n := by omega
    rw [← hmn]
    rw [uint32Compare_char (hkb _ hmlt) hkey]
    by_cases hc1 : p.recKey (((first + last) / 2).toNat : Int) < key
    · rw [if_pos hc1, if_pos (by norm_num)]
      have hgt : ((first + last) / 2).toNat < i0 := by
        by_contra hle
        rcases Nat.eq_or_lt_of_le (Nat.le_of_not_lt hle) with h | h
        · rw [h] at hfound
          omega
        · have := hsk i0 _ h hmlt
          omega
      exact ih _ last (by omega) h2 (by omega) h4 (by omega)
    · rw [if_neg hc1]
      by_cases hc2 : key < p.recKey (((first + last) / 2).toNat : Int)
      · rw [if_pos hc2, if_neg (by norm_num), if_neg (by norm_num)]
        have hlt : i0 < ((first + last) / 2).toNat := by
          by_contra hle
          rcases Nat.eq_or_lt_of_le (Nat.le_of_not_lt hle) with h | h
          · rw [← h] at hfound
            omega
          · have := hsk _ i0 h hi0
            omega
        exact ih first _ h1 (by omega) h3 (by omega) (by omega)
      · rw [if_neg hc2, if_neg (by norm_num), if_pos rfl]
        have hmeq : ((first + last) / 2).toNat = i0 := by
          by_contra hne
          rcases Nat.lt_or_ge ((first + last) / 2).toNat i0 with h | h
          · have := hsk _ i0 h hi0
            omega
          · rcases Nat.eq_or_lt_of_le h with h2 | h2
            · omega
            · have := hsk i0 _ h2 hmlt
              omega
        rw [hmeq]

/-- `sbtreeSearchNode` on a leaf returns the record index of a key that
is present. -/
theorem searchNode_leaf_found (s : SB) (p : Page) (key n i0 : Nat)
    (hleaf : SBTREE_IS_INTERIOR p = false) (hcnt : SBTREE_GET_COUNT p = n)
    (hsk : ∀ i j : Nat, i < j → j < n → p.recKey (i : Int) < p.recKey (j : Int))
    (hkb : ∀ i : Nat, i < n → p.recKey (i : Int) < 2147483648)
    (hkey : key < 2147483648) (hi0 : i0 < n) (hfound : p.recKey (i0 : Int) = key) :
    sbtreeSearchNode s p key false = (i0 : Int) := by
  unfold sbtreeSearchNode
  rw [hleaf, if_neg (by exact Bool.false_ne_true), hcnt]
  exact leafSearchLoop_found p key n i0 hsk hkb hkey hi0 hfound (n + 2) 0 ((n : Int) - 1)
    (by omega) (by omega) (by omega) (by omega) (by omega)

/-! ### Buffer pool: contents served by `readPage` -/

/-- Common tail of the `readPage` miss path: after the chosen slot's
status is reset and the page is loaded, the pool invariant holds and the
slot holds the stored page. -/
theorem readPage_miss_tail (s : SB) (p : Nat) (pg : Page) (i : Nat)
    (hmod : ∀ j, s.modified j = NOT_MODIFIED_VAL) (hnbp2 : 1 ≤ s.nextBufferPage)
    (hcache : CacheOK s) (hwb : WrittenBelow s) (hsb : StatusBelow s)
    (hst : s.storage p = some pg) (hp : p < s.nextPageWriteId) :
    PoolInv (readPageBuffer { s with
      status := upd s.status i p,
      modified := upd s.modified i NOT_MODIFIED_VAL } p i) ∧
    (readPageBuffer { s with
      status := upd s.status i p,
      modified := upd s.modified i NOT_MODIFIED_VAL } p i).slots i = pg := by
  refine ⟨⟨⟨?_, hnbp2⟩, ?_, hwb, ?_⟩, ?_⟩
  · intro j
    by_cases hj : j = i <;> simp [readPageBuffer, upd, hj, hmod]
  · intro j hj1 hj2 hj3
    simp only [readPageBuffer, upd] at hj2 hj3 ⊢
    by_cases hj : j = i
    · subst hj
      simp [hst]
    · simp only [if_neg hj] at hj2 hj3 ⊢
      exact hcache j hj1 hj2 hj3
  · intro j hj1 hj2
    simp only [readPageBuffer, upd] at hj2 ⊢
    by_cases hj : j = i
    · subst hj
      simpa using hp
    · simp only [if_neg hj] at hj2 ⊢
      exact hsb j hj1 hj2
  · simp [readPageBuffer, upd, hst]

/-- Under the pool invariant, `readPage` for an already-written physical
page preserves the invariant and returns a slot holding exactly the
stored page. -/
theorem readPage_pool (s : SB) (p : Nat) (pg : Page) (h : PoolInv s)
    (hst : s.storage p = some pg) (hp : p < s.nextPageWriteId)
    (hne : p ≠ BUFFER_EMPTY_ID) :
    PoolInv (readPage s p).1 ∧ (readPage s p).1.slots (readPage s p).2 = pg := by
  obtain ⟨⟨hmod, hnbp⟩, hcache, hwb, hsb⟩ := h
  unfold readPage
  cases hf : findHit s p with
  | some i =>
    simp only [hf]
    obtain ⟨hi1, hieq⟩ := findHit_spec hf
    refine ⟨⟨⟨hmod, hnbp⟩, hcache, hwb, hsb⟩, ?_⟩
    have hc := hcache i hi1 (by rw [hieq]; exact hne) (by rw [hieq]; exact hp)
    rw [hieq, hst] at hc
    exact (Option.some.inj hc).symm
  | none =>
    simp only [hf]
    split
    next h2 =>
      dsimp only
      rw [if_neg (by simp [hmod])]
      exact readPage_miss_tail s p pg 1 hmod hnbp hcache hwb hsb hst hp
    next h2 =>
      split
      next h3 =>
        dsimp only
        rw [if_neg (by simp [hmod])]
        exact readPage_miss_tail s p pg 1 hmod hnbp hcache hwb hsb hst hp
      next h3 =>
        split
        next h4 =>
          dsimp only
          rw [if_neg (by simp [hmod])]
          exact readPage_miss_tail s p pg 2 hmod hnbp hcache hwb hsb hst hp
        next h4 =>
          cases he : emptyScan s with
          | some i =>
            simp only [he]
            rw [if_neg (by simp [hmod])]
            exact readPage_miss_tail s p pg i hmod hnbp hcache hwb hsb hst hp
          | none =>
            have hn2 : 1 ≤ (roundRobin s s.nextBufferPage (s.nextBufferPage + 1)
                (2 * s.numPages + 4)).2 := roundRobin_nbp_pos _ s _ _ (by omega)
            simp only [he]
            rw [if_neg (by simp [hmod])]
            exact readPage_miss_tail _ p pg _ hmod hn2 hcache hwb hsb hst hp

/-! ### Projections of `writeAt` -/

/-- Storage after `writeAt`: below the counter wrap, the page (stamped
with the logical id) is appended at the old write counter. -/
theorem writeAt_storage (s : SB) (l : Nat) (pg : Page) (n : Nat)
    (hW : s.nextPageWriteId < 4294967296) :
    (writeAt s l pg).storage n = if n = s.nextPageWriteId
      then some { pg with pageId := s.nextPageId % 4294967296 } else s.storage n := by
  have h : (writeAt s l pg).storage n = if n = s.nextPageWriteId % 4294967296
      then some { pg with pageId := s.nextPageId % 4294967296 } else s.storage n := rfl
  rw [h, Nat.mod_eq_of_lt hW]

/-- Active path after `writeAt`, below the counter wrap. -/
theorem writeAt_activePath (s : SB) (l : Nat) (pg : Page)
    (hW : s.nextPageWriteId < 4294967296) :
    (writeAt s l pg).activePath = upd s.activePath l s.nextPageWriteId := by
  have h : (writeAt s l pg).activePath =
      upd s.activePath l (s.nextPageWriteId % 4294967296) := rfl
  rw [h, Nat.mod_eq_of_lt hW]

/-- Write counter after `writeAt`. -/
theorem writeAt_npw (s : SB) (l : Nat) (pg : Page) :
    (writeAt s l pg).nextPageWriteId = s.nextPageWriteId + 1 := rfl

/-- Levels after `writeAt`. -/
theorem writeAt_levels (s : SB) (l : Nat) (pg : Page) :
    (writeAt s l pg).levels = s.levels := rfl

/-- The slot-0 buffer after `writeAt` holds the stamped page. -/
theorem writeAt_slots0 (s : SB) (l : Nat) (pg : Page) :
    (writeAt s l pg).slots 0 = { pg with pageId := s.nextPageId % 4294967296 } := by
  simp [writeAt, writePage, upd]

/-- Slots other than 0 are untouched by `writeAt`. -/
theorem writeAt_slots (s : SB) (l : Nat) (pg : Page) (j : Nat) (hj : j ≠ 0) :
    (writeAt s l pg).slots j = s.slots j := by
  simp [writeAt, writePage, upd, hj]

/-- Statuses other than slot 0 are untouched by `writeAt`. -/
theorem writeAt_status (s : SB) (l : Nat) (pg : Page) (j : Nat) (hj : j ≠ 0) :
    (writeAt s l pg).status j = s.status j := by
  simp [writeAt, writePage, upd, hj]

/-- Modified flags after `writeAt`. -/
theorem writeAt_modified (s : SB) (l : Nat) (pg : Page) :
    (writeAt s l pg).modified = upd s.modified 0 NOT_MODIFIED_VAL := rfl

/-- Round-robin cursor after `writeAt`. -/
theorem writeAt_nbp (s : SB) (l : Nat) (pg : Page) :
    (writeAt s l pg).nextBufferPage = s.nextBufferPage := rfl

/-- Configuration after `writeAt`. -/
theorem writeAt_cfg (s : SB) (l : Nat) (pg : Page) : CfgFrame s (writeAt s l pg) :=
  ⟨rfl, rfl, rfl, rfl, rfl, rfl, rfl, rfl⟩

/-- `writeAt` preserves the pool invariant below the counter wrap. -/
theorem writeAt_pool {s : SB} (l : Nat) (pg : Page)
    (hW : s.nextPageWriteId < 4294967296) (h : PoolInv s) :
    PoolInv (writeAt s l pg) := by
  obtain ⟨⟨hmod, hnbp⟩, hcache, hwb, hsb⟩ := h
  refine ⟨⟨?_, hnbp⟩, ?_, ?_, ?_⟩
  · intro j
    rw [writeAt_modified]
    by_cases hj : j = 0 <;> simp [upd, hj, hmod]
  · intro j hj1 hj2 hj3
    rw [writeAt_status s l pg j (by omega)] at hj2 ⊢
    rw [writeAt_slots s l pg j (by omega), writeAt_storage s l pg _ hW]
    have hlt : s.status j < s.nextPageWriteId := hsb j hj1 hj2
    rw [if_neg (by omega)]
    exact hcache j hj1 hj2 hlt
  · intro q hq
    rw [writeAt_storage s l pg _ hW]
    by_cases hqe : q = s.nextPageWriteId
    · simp [hqe]
    · rw [writeAt_npw] at hq
      rw [if_neg hqe]
      exact hwb q (by omega)
  · intro j hj1 hj2
    rw [writeAt_status s l pg j (by omega)] at hj2 ⊢
    rw [writeAt_npw]
    have := hsb j hj1 hj2
    omega

/-- `initBufferPage` on the write buffer preserves the pool invariant. -/
theorem initBufferPage0_pool {s : SB} (h : PoolInv s) : PoolInv (initBufferPage s 0) := by
  obtain ⟨⟨hmod, hnbp⟩, hcache, hwb, hsb⟩ := h
  refine ⟨⟨hmod, hnbp⟩, ?_, hwb, hsb⟩
  intro j hj1 hj2 hj3
  have hs : (initBufferPage s 0).slots j = s.slots j := by
    show upd s.slots 0 _ j = _
    rw [upd, if_neg (by omega)]
  rw [hs]
  exact hcache j hj1 hj2 hj3

/-- Loading a page into the write buffer preserves the pool invariant. -/
theorem readPageBuffer0_pool {s : SB} (p : Nat) (h : PoolInv s) :
    PoolInv (readPageBuffer s p 0) := by
  obtain ⟨⟨hmod, hnbp⟩, hcache, hwb, hsb⟩ := h
  refine ⟨⟨hmod, hnbp⟩, ?_, hwb, hsb⟩
  intro j hj1 hj2 hj3
  have hs : (readPageBuffer s p 0).slots j = s.slots j := by
    show upd s.slots 0 _ j = _
    rw [upd, if_neg (by omega)]
  rw [hs]
  exact hcache j hj1 hj2 hj3

/-- Transitivity of the configuration frame. -/
theorem CfgFrame_trans {s t u : SB} (h1 : CfgFrame s t) (h2 : CfgFrame t u) : CfgFrame s u := by
  obtain ⟨a1, a2, a3, a4, a5, a6, a7, a8⟩ := h1
  obtain ⟨b1, b2, b3, b4, b5, b6, b7, b8⟩ := h2
  exact ⟨b1.trans a1, b2.trans a2, b3.trans a3, b4.trans a4, b5.trans a5, b6.trans a6,
    b7.trans a7, b8.trans a8⟩

/-- Reflexivity of the configuration frame. -/
theorem CfgFrame_refl (s : SB) : CfgFrame s s := ⟨rfl, rfl, rfl, rfl, rfl, rfl, rfl, rfl⟩

/-! ### Transport of tree representations across state changes -/

/-- Frozen subtrees survive storage extension, a larger page bound and a
pointwise larger active path. -/
theorem SubRep_mono {st st2 : Nat → Option Page} {N N2 lev : Nat} {ap ap2 : Nat → Nat}
    {M : Nat} (hst : ∀ q : Nat, q < N → st2 q = st q) (hN : N ≤ N2)
    (hap : ∀ i : Nat, ap i ≤ ap2 i) :
    ∀ {lvl q kvs lo}, SubRep st N lev ap M lvl q kvs lo →
      SubRep st2 N2 lev ap2 M lvl q kvs lo := by
  intro lvl q kvs lo h
  induction h with
  | leaf q kvs lo p hstq hq0 hqN hleaf hlen hrep hne hsort hkb hlo =>
    exact SubRep.leaf q kvs lo p (by rw [hst q hqN]; exact hstq) hq0 (by omega) hleaf hlen
      hrep hne hsort hkb hlo
  | node lvl q kvs lo p kvss hstq hq0 hqN hlvl hap2 hint hcnt hsort hkb hlo0 hkvs hchild
      hub ih =>
    exact SubRep.node lvl q kvs lo p kvss (by rw [hst q hqN]; exact hstq) hq0 (by omega)
      hlvl (fun hl => lt_of_lt_of_le (hap2 hl) (hap lvl)) hint hcnt hsort hkb hlo0 hkvs
      (fun j hj => ih j hj) hub

/-- Frozen subtrees shift one level down when the tree grows a level. -/
theorem SubRep_shift {st : Nat → Option Page} {N lev : Nat} {ap : Nat → Nat} {M : Nat}
    (ap2 : Nat → Nat) (hs : ∀ i : Nat, i < lev → ap2 (i + 1) = ap i) :
    ∀ {lvl q kvs lo}, SubRep st N lev ap M lvl q kvs lo →
      SubRep st N (lev + 1) ap2 M (lvl + 1) q kvs lo := by
  intro lvl q kvs lo h
  induction h with
  | leaf q kvs lo p hstq hq0 hqN hleaf hlen hrep hne hsort hkb hlo =>
    exact SubRep.leaf q kvs lo p hstq hq0 hqN hleaf hlen hrep hne hsort hkb hlo
  | node lvl q kvs lo p kvss hstq hq0 hqN hlvl hap2 hint hcnt hsort hkb hlo0 hkvs hchild
      hub ih =>
    refine SubRep.node (lvl + 1) q kvs lo p kvss hstq hq0 hqN (by omega) ?_ hint hcnt
      hsort hkb hlo0 hkvs (fun j hj => ih j hj) hub
    intro hl
    rw [hs lvl hlvl]
    exact hap2 (by omega)

/-- All records of a frozen subtree respect its lower key bound. -/
theorem SubRep_keysGE {st : Nat → Option Page} {N lev : Nat} {ap : Nat → Nat} {M : Nat} :
    ∀ {lvl q kvs lo}, SubRep st N lev ap M lvl q kvs lo → keysGE kvs lo := by
  intro lvl q kvs lo h
  induction h with
  | leaf q kvs lo p hstq hq0 hqN hleaf hlen hrep hne hsort hkb hlo => exact hlo
  | node lvl q kvs lo p kvss hstq hq0 hqN hlvl hap2 hint hcnt hsort hkb hlo0 hkvs hchild
      hub ih =>
    intro kv hm
    rw [hkvs] at hm
    obtain ⟨j, hj, hmj⟩ := mem_kvCat.mp hm
    have hge := ih j (by omega) kv hmj
    by_cases hj0 : j = 0
    · rw [hj0] at hge
      simpa using hge
    · rw [if_neg hj0] at hge
      have hM1 : 1 ≤ M := by omega
      have hk0 : lo ≤ p.keys 0 := hlo0 hM1
      by_cases hj1 : j - 1 = 0
      · rw [hj1] at hge
        omega
      · have := hsort 0 (j - 1) (by omega) (by omega)
        omega

/-- Records of a frozen subtree are nonempty. -/
theorem SubRep_ne {st : Nat → Option Page} {N lev : Nat} {ap : Nat → Nat} {M : Nat}
    {lvl q kvs lo} (hM : 1 ≤ M) (h : SubRep st N lev ap M lvl q kvs lo) : kvs ≠ [] := by
  induction h with
  | leaf q kvs lo p hstq hq0 hqN hleaf hlen hrep hne hsort hkb hlo => exact hne
  | node lvl q kvs lo p kvss hstq hq0 hqN hlvl hap2 hint hcnt hsort hkb hlo0 hkvs hchild
      hub ih =>
    intro hemp
    rw [hkvs] at hemp
    have h0 := ih 0 (by omega)
    have : kvss 0 = [] := by
      cases hk : kvss 0 with
      | nil => rfl
      | cons a t =>
        have : a ∈ kvCat kvss (M + 1) := mem_kvCat.mpr ⟨0, by omega, by rw [hk]; exact List.mem_cons_self a t⟩
        rw [hemp] at this
        cases this
    exact h0 this

/-- Transport of a mid-level frame: storage extension, larger bound,
unchanged active path at its own level, pointwise larger active path
elsewhere. -/
theorem MidFrame_mono {st st2 : Nat → Option Page} {N N2 lev : Nat} {ap ap2 : Nat → Nat}
    {M lvl : Nat} {p : Page} {kvss : Nat → List KV} {lo hi : Nat}
    (hst : ∀ q : Nat, q < N → st2 q = st q) (hN : N ≤ N2)
    (hapl : ap2 lvl = ap lvl) (hap : ∀ i : Nat, ap i ≤ ap2 i)
    (h : MidFrame st N lev ap M lvl p kvss lo hi) :
    MidFrame st2 N2 lev ap2 M lvl p kvss lo hi := by
  obtain ⟨h1, h2, h3, h4, h5, h6, h7, h8, h9, h10, h11, h12, h13⟩ := h
  exact ⟨by rw [hapl, hst _ h2]; exact h1, by omega, h3, h4, h5, h6, h7, h8, h9, h10,
    fun j hj => SubRep_mono hst hN hap (h11 j hj), h12, h13⟩

/-- Transport of the deepest frame. -/
theorem DeepFrame_mono {st st2 : Nat → Option Page} {N N2 lev : Nat} {ap ap2 : Nat → Nat}
    {M : Nat} {p : Page} {kvss : Nat → List KV} {lo hi : Nat}
    (hst : ∀ q : Nat, q < N → st2 q = st q) (hN : N ≤ N2)
    (hapl : ap2 (lev - 1) = ap (lev - 1)) (hap : ∀ i : Nat, ap i ≤ ap2 i)
    (h : DeepFrame st N lev ap M p kvss lo hi) :
    DeepFrame st2 N2 lev ap2 M p kvss lo hi := by
  obtain ⟨h1, h2, h3, h4, h5, h6, h7, h8, h9, h10, h11, h12, h13⟩ := h
  exact ⟨by rw [hapl, hst _ h2]; exact h1, by omega, h3, h4, h5, h6, h7, h8, h9,
    fun j hj => SubRep_mono hst hN hap (h10 j hj), h11, h12,
    fun hc => by rw [hapl]; exact h13 hc⟩

/-- Weakening the frontier of a mid-level frame. -/
theorem MidFrame_hi_mono {st : Nat → Option Page} {N lev : Nat} {ap : Nat → Nat}
    {M lvl : Nat} {p : Page} {kvss : Nat → List KV} {lo hi hi2 : Nat} (hh : hi ≤ hi2)
    (h : MidFrame st N lev ap M lvl p kvss lo hi) :
    MidFrame st N lev ap M lvl p kvss lo hi2 := by
  obtain ⟨h1, h2, h3, h4, h5, h6, h7, h8, h9, h10, h11, h12, h13⟩ := h
  exact ⟨h1, h2, h3, h4, h5, h6, h7, fun i hi3 => lt_of_lt_of_le (h8 i hi3) hh, by omega,
    h10, h11, h12, h13⟩

/-- Weakening the frontier of the deepest frame. -/
theorem DeepFrame_hi_mono {st : Nat → Option Page} {N lev : Nat} {ap : Nat → Nat}
    {M : Nat} {p : Page} {kvss : Nat → List KV} {lo hi hi2 : Nat} (hh : hi ≤ hi2)
    (h : DeepFrame st N lev ap M p kvss lo hi) :
    DeepFrame st N lev ap M p kvss lo hi2 := by
  obtain ⟨h1, h2, h3, h4, h5, h6, h7, h8, h9, h10, h11, h12, h13⟩ := h
  exact ⟨h1, h2, h3, h4, h5, h6, fun i hi3 => le_trans (h7 i hi3) hh, by omega, h9,
    h10, h11, h12, h13⟩

/-- The zipper spans a valid level range. -/
theorem SpineTo_le {st : Nat → Option Page} {N lev : Nat} {ap : Nat → Nat} {M : Nat} :
    ∀ {rmin lvl hl kvs lo hi dlo}, SpineTo st N lev ap M rmin lvl hl kvs lo hi dlo →
      lvl ≤ hl := by
  intro rmin lvl hl kvs lo hi dlo h
  induction h with
  | nil rmin lvl lo hi h => exact le_refl lvl
  | cons rmin lvl hl p kvss kvsR lo hi dlo hf hr rest ih => omega

/-- The dangling lower bound of a zipper never exceeds its frontier. -/
theorem SpineTo_dlo {st : Nat → Option Page} {N lev : Nat} {ap : Nat → Nat} {M : Nat} :
    ∀ {rmin lvl hl kvs lo hi dlo}, SpineTo st N lev ap M rmin lvl hl kvs lo hi dlo →
      dlo ≤ hi := by
  intro rmin lvl hl kvs lo hi dlo h
  induction h with
  | nil rmin lvl lo hi h => exact h
  | cons rmin lvl hl p kvss kvsR lo hi dlo hf hr rest ih => exact ih

/-- Weakening the root count bound of a zipper. -/
theorem SpineTo_rmin {st : Nat → Option Page} {N lev : Nat} {ap : Nat → Nat} {M : Nat}
    {rmin rmin2 : Nat} (hr2 : rmin2 ≤ rmin) :
    ∀ {lvl hl kvs lo hi dlo}, SpineTo st N lev ap M rmin lvl hl kvs lo hi dlo →
      SpineTo st N lev ap M rmin2 lvl hl kvs lo hi dlo := by
  intro lvl hl kvs lo hi dlo h
  cases h with
  | nil rmin lvl lo hi h => exact SpineTo.nil rmin2 lvl lo hi h
  | cons rmin lvl hl p kvss kvsR lo hi dlo hf hr rest =>
    exact SpineTo.cons rmin2 lvl hl p kvss kvsR lo hi dlo hf (by omega) rest

/-- Transport of a zipper: storage extension, larger bound, unchanged
active path strictly above the hole, pointwise larger active path. -/
theorem SpineTo_mono {st st2 : Nat → Option Page} {N N2 lev : Nat} {ap ap2 : Nat → Nat}
    {M : Nat} (hst : ∀ q : Nat, q < N → st2 q = st q) (hN : N ≤ N2)
    (hap : ∀ i : Nat, ap i ≤ ap2 i) :
    ∀ {rmin lvl hl kvs lo hi dlo}, SpineTo st N lev ap M rmin lvl hl kvs lo hi dlo →
      (∀ i : Nat, lvl ≤ i → i < hl → ap2 i = ap i) →
      SpineTo st2 N2 lev ap2 M rmin lvl hl kvs lo hi dlo := by
  intro rmin lvl hl kvs lo hi dlo h
  induction h with
  | nil rmin lvl lo hi h => intro _; exact SpineTo.nil rmin lvl lo hi h
  | cons rmin lvl hl p kvss kvsR lo hi dlo hf hr rest ih =>
    intro hapEq
    have hlvl : lvl < hl := by
      have := SpineTo_le rest
      omega
    exact SpineTo.cons rmin lvl hl p kvss kvsR lo hi dlo
      (MidFrame_mono hst hN (hapEq lvl (le_refl lvl) hlvl) hap hf) hr
      (ih fun i h1 h2 => hapEq i (by omega) h2)

/-- Weakening the frontier of a zipper. -/
theorem SpineTo_hi_mono {st : Nat → Option Page} {N lev : Nat} {ap : Nat → Nat} {M : Nat}
    {hi hi2 : Nat} (hh : hi ≤ hi2) :
    ∀ {rmin lvl hl kvs lo dlo}, SpineTo st N lev ap M rmin lvl hl kvs lo hi dlo →
      SpineTo st N lev ap M rmin lvl hl kvs lo hi2 dlo := by
  intro rmin lvl hl kvs lo dlo h
  induction h with
  | nil rmin lvl lo hi h => exact SpineTo.nil rmin lvl lo hi2 (by omega)
  | cons rmin lvl hl p kvss kvsR lo hi dlo hf hr rest ih =>
    exact SpineTo.cons rmin lvl hl p kvss kvsR lo hi2 dlo (MidFrame_hi_mono hh hf) hr (ih hh)

/-- Shifting a zipper one level down when the tree grows. -/
theorem SpineTo_shift {st : Nat → Option Page} {N lev : Nat} {ap : Nat → Nat} {M : Nat}
    (ap2 : Nat → Nat) (hs : ∀ i : Nat, i < lev → ap2 (i + 1) = ap i) :
    ∀ {rmin lvl hl kvs lo hi dlo}, SpineTo st N lev ap M rmin lvl hl kvs lo hi dlo →
      SpineTo st N (lev + 1) ap2 M rmin (lvl + 1) (hl + 1) kvs lo hi dlo := by
  intro rmin lvl hl kvs lo hi dlo h
  induction h with
  | nil rmin lvl lo hi h => exact SpineTo.nil rmin (lvl + 1) lo hi h
  | cons rmin lvl hl p kvss kvsR lo hi dlo hf hr rest ih =>
    obtain ⟨h1, h2, h3, h4, h5, h6, h7, h8, h9, h10, h11, h12, h13⟩ := hf
    refine SpineTo.cons rmin (lvl + 1) (hl + 1) p kvss kvsR lo hi dlo
      ⟨?_, ?_, by omega, h4, h5, h6, h7, h8, h9, h10,
        fun j hj => SubRep_shift ap2 hs (h11 j hj), h12, h13⟩ hr ih
    · rw [hs lvl (by omega)]
      exact h1
    · rw [hs lvl (by omega)]
      exact h2

/-- Concatenating two zippers. -/
theorem SpineTo_append {st : Nat → Option Page} {N lev : Nat} {ap : Nat → Nat} {M : Nat} :
    ∀ {rmin rmin2 lvl mid kvs1 lo hi dlo1},
      SpineTo st N lev ap M rmin lvl mid kvs1 lo hi dlo1 →
      ∀ {hl kvs2 dlo}, SpineTo st N lev ap M rmin2 mid hl kvs2 dlo1 hi dlo →
      (lvl = mid → rmin ≤ rmin2) →
      SpineTo st N lev ap M rmin lvl hl (kvs1 ++ kvs2) lo hi dlo := by
  intro rmin rmin2 lvl mid kvs1 lo hi dlo1 h
  induction h with
  | nil rmin lvl lo hi h =>
    intro hl kvs2 dlo h2 hr
    simpa using SpineTo_rmin (hr rfl) h2
  | cons rmin lvl hl p kvss kvsR lo hi dlo hf hr rest ih =>
    intro hl2 kvs2 dlo2 h2 hr2
    have hlvl : lvl < hl := by
      have := SpineTo_le rest
      omega
    have := SpineTo.cons rmin lvl hl2 p kvss (kvsR ++ kvs2) lo hi dlo2 hf hr
      (ih h2 (by omega))
    rwa [← List.append_assoc] at this

/-! ### Zipper surgery: removing and reattaching the bottom frame -/

/-- A zipper over an empty level range carries no frames. -/
theorem SpineTo_refl_inv {st : Nat → Option Page} {N lev : Nat} {ap : Nat → Nat} {M : Nat}
    {rmin lvl hl kvs lo hi dlo}
    (h : SpineTo st N lev ap M rmin lvl hl kvs lo hi dlo) (he : lvl = hl) :
    kvs = [] ∧ dlo = lo := by
  cases h with
  | nil rmin lvl lo hi h => exact ⟨rfl, rfl⟩
  | cons rmin lvl hl p kvss kvsR lo hi dlo hf hr rest =>
    have := SpineTo_le rest
    omega

/-- Splitting the bottom frame off a zipper. -/
theorem SpineTo_snoc {st : Nat → Option Page} {N lev : Nat} {ap : Nat → Nat} {M : Nat} :
    ∀ {rmin lvl k kvs lo hi dlo},
      SpineTo st N lev ap M rmin lvl k kvs lo hi dlo →
      ∀ hl : Nat, k = hl + 1 → lvl ≤ hl →
      ∃ (kvs1 : List KV) (p : Page) (kvss : Nat → List KV) (lo2 : Nat),
        SpineTo st N lev ap M rmin lvl hl kvs1 lo hi lo2 ∧
        MidFrame st N lev ap M hl p kvss lo2 hi ∧
        (lvl = hl → rmin ≤ SBTREE_GET_COUNT p) ∧
        kvs = kvs1 ++ kvCat kvss (SBTREE_GET_COUNT p) ∧
        dlo = (if SBTREE_GET_COUNT p = 0 then lo2 else p.keys (SBTREE_GET_COUNT p - 1)) := by
  intro rmin lvl k kvs lo hi dlo h
  induction h with
  | nil rmin lvl lo hi h => intro hl hk hle; omega
  | cons rmin lvl hl2 p kvss kvsR lo hi dlo hf hr rest ih =>
    intro hl hk hle
    by_cases heq : lvl = hl
    · subst heq
      obtain ⟨hk1, hk2⟩ := SpineTo_refl_inv rest (by omega)
      refine ⟨[], p, kvss, lo, SpineTo.nil rmin lvl lo hi hf.hlohi, hf, fun _ => hr, ?_, ?_⟩
      · rw [hk1, List.append_nil, List.nil_append]
      · rw [hk2]
    · obtain ⟨kvs1, p2, kvss2, lo2, hz, hfr, hrm, hkvs, hdlo⟩ :=
        ih hl hk (by have := SpineTo_le rest; omega)
      refine ⟨kvCat kvss (SBTREE_GET_COUNT p) ++ kvs1, p2, kvss2, lo2,
        SpineTo.cons rmin lvl hl p kvss kvs1 lo hi lo2 hf hr hz,
        hfr, fun hc => absurd hc heq, ?_, hdlo⟩
      rw [hkvs, List.append_assoc]

/-- Reattaching a (new) bottom frame to a zipper. -/
theorem SpineTo_snoc_build {st : Nat → Option Page} {N lev : Nat} {ap : Nat → Nat}
    {M : Nat} :
    ∀ {rmin lvl hl kvs1 lo hi lo2},
      SpineTo st N lev ap M rmin lvl hl kvs1 lo hi lo2 →
      ∀ (p : Page) (kvss : Nat → List KV),
      MidFrame st N lev ap M hl p kvss lo2 hi →
      (lvl = hl → rmin ≤ SBTREE_GET_COUNT p) →
      SpineTo st N lev ap M rmin lvl (hl + 1) (kvs1 ++ kvCat kvss (SBTREE_GET_COUNT p))
        lo hi (if SBTREE_GET_COUNT p = 0 then lo2 else p.keys (SBTREE_GET_COUNT p - 1)) := by
  intro rmin lvl hl kvs1 lo hi lo2 h
  induction h with
  | nil rmin lvl lo hi h =>
    intro p kvss hf hr
    have hd : (if SBTREE_GET_COUNT p = 0 then lo else p.keys (SBTREE_GET_COUNT p - 1)) ≤ hi := by
      by_cases hc : SBTREE_GET_COUNT p = 0
      · rw [if_pos hc]
        exact hf.hlohi
      · rw [if_neg hc]
        exact le_of_lt (hf.hhi _ (by omega))
    have hcons := SpineTo.cons rmin lvl (lvl + 1) p kvss [] lo hi
      (if SBTREE_GET_COUNT p = 0 then lo else p.keys (SBTREE_GET_COUNT p - 1)) hf (hr rfl)
      (SpineTo.nil 0 (lvl + 1) _ hi hd)
    simpa using hcons
  | cons rmin lvl hl p kvss kvsR lo hi dlo hf hr rest ih =>
    intro p2 kvss2 hfr hrm
    have hlvl : lvl < hl := by
      have := SpineTo_le rest
      omega
    have hcons := SpineTo.cons rmin lvl (hl + 1) p kvss (kvsR ++ kvCat kvss2 (SBTREE_GET_COUNT p2))
      lo hi (if SBTREE_GET_COUNT p2 = 0 then dlo else p2.keys (SBTREE_GET_COUNT p2 - 1)) hf hr
      (ih p2 kvss2 hfr (fun _ => Nat.zero_le _))
    rwa [← List.append_assoc] at hcons

/-! ### Characterizing the level-loop step of `sbtreeUpdateIndex` -/

/-- The node loaded by `updateIndexStep` is the stored active page. -/
theorem readPageBuffer_slot0 (s : SB) (q : Nat) (p : Page) (hst : s.storage q = some p) :
    (readPageBuffer s q 0).slots 0 = p := by
  simp [readPageBuffer, upd, hst]

/-- `updateIndexStep` runs the loop body on the stored active page. -/
theorem updateIndexStep_eq (s : SB) (minkey key l pageNum : Nat) (pv : Int) (p : Page)
    (hst : s.storage (s.activePath l) = some p) :
    updateIndexStep s minkey key l pageNum pv =
      updateIndexBody (readPageBuffer s (s.activePath l) 0) p minkey key l pageNum pv := by
  unfold updateIndexStep
  dsimp only
  rw [readPageBuffer_slot0 s _ p hst]

/-- A non-full body absorbs the new child into the loaded node and
writes it back. -/
theorem updateIndexBody_absorb (s : SB) (buf : Page) (minkey key l pageNum : Nat) (pv : Int)
    (hnf : ¬ (SBTREE_GET_COUNT buf > s.maxInteriorRecordsPerPage ∨
      ((l : Int) < (s.levels : Int) - 1 ∧
        SBTREE_GET_COUNT buf ≥ s.maxInteriorRecordsPerPage))) :
    updateIndexBody s buf minkey key l pageNum pv =
      (writeAt s l (absorbPage s buf minkey key l pageNum pv), none) := by
  unfold updateIndexBody
  rw [if_neg hnf]
  rfl

/-- A full body below the top of the loop chain (`l < levels - 1`)
patches and freezes the loaded node, then creates a fresh node holding
only the new child pointer. -/
theorem updateIndexBody_full_mid (s : SB) (buf : Page) (minkey key l pageNum : Nat)
    (pv : Int)
    (hfull : SBTREE_GET_COUNT buf > s.maxInteriorRecordsPerPage ∨
      ((l : Int) < (s.levels : Int) - 1 ∧
        SBTREE_GET_COUNT buf ≥ s.maxInteriorRecordsPerPage))
    (hlt : (l : Int) < (s.levels : Int) - 1)
    (hW : s.nextPageWriteId + 1 < 4294967296) :
    updateIndexBody s buf minkey key l pageNum pv =
      (writeAt (initBufferPage (writeAt s l (patchPage buf pv)) 0) l
        (newNodePage s.dataSize s.levels key l pageNum),
       some (s.nextPageWriteId + 1, (s.nextPageWriteId : Int))) := by
  have hne : ¬ l = s.levels - 1 := by omega
  have e1 : s.nextPageWriteId % 4294967296 = s.nextPageWriteId :=
    Nat.mod_eq_of_lt (by omega)
  have e2 : (s.nextPageWriteId + 1) % 4294967296 = s.nextPageWriteId + 1 :=
    Nat.mod_eq_of_lt hW
  unfold updateIndexBody
  rw [if_pos hfull]
  dsimp only
  rw [if_pos hlt]
  refine Prod.ext ?_ ?_
  · ext <;> simp [writeAt, writePage, initBufferPage, upd, patchPage,
      newNodePage, zeroPage, hne, SBTREE_SET_INTERIOR, SBTREE_INC_COUNT] <;>
      split_ifs <;> rfl
  · simp [writeAt, writePage, initBufferPage, upd, hne, e1, e2]

/-- A full body at the deepest level does not patch the old node (it is
already complete in storage); only the fresh node is written. -/
theorem updateIndexBody_full_deep (s : SB) (buf : Page) (minkey key l pageNum : Nat)
    (pv : Int)
    (hfull : SBTREE_GET_COUNT buf > s.maxInteriorRecordsPerPage ∨
      ((l : Int) < (s.levels : Int) - 1 ∧
        SBTREE_GET_COUNT buf ≥ s.maxInteriorRecordsPerPage))
    (hge : ¬ ((l : Int) < (s.levels : Int) - 1)) (heq : l = s.levels - 1)
    (hW : s.nextPageWriteId < 4294967296) :
    updateIndexBody s buf minkey key l pageNum pv =
      (writeAt (initBufferPage s 0) l (newNodePage s.dataSize s.levels key l pageNum),
       some (s.nextPageWriteId, (s.activePath l : Int))) := by
  have e1 : s.nextPageWriteId % 4294967296 = s.nextPageWriteId := Nat.mod_eq_of_lt hW
  unfold updateIndexBody
  rw [if_pos hfull]
  dsimp only
  rw [if_neg hge]
  refine Prod.ext ?_ ?_
  · ext <;> simp [writeAt, writePage, initBufferPage, upd, newNodePage, zeroPage, heq,
      SBTREE_SET_INTERIOR, SBTREE_INC_COUNT] <;>
      split_ifs <;> rfl
  · simp [writeAt, writePage, initBufferPage, upd, heq, e1]

/-! ### Shapes of the pages written by the level loop -/

/-- Fields of an absorbed non-deepest node (separator slot free, a real
previous child to patch in). -/
theorem absorbPage_mid (s : SB) (p : Page) (minkey key l pageNum : Nat) (pv : Int)
    (hc : SBTREE_GET_COUNT p < s.maxInteriorRecordsPerPage)
    (hne : l ≠ s.levels - 1)
    (hroot : l = 0 ∧ s.levels > 1 → 1 ≤ SBTREE_GET_COUNT p)
    (hpv : pv ≠ -1) :
    (absorbPage s p minkey key l pageNum pv).rawCount = (p.rawCount + 1) % 65536 ∧
    (absorbPage s p minkey key l pageNum pv).keys = upd p.keys (SBTREE_GET_COUNT p) minkey ∧
    ∀ j : Nat, (absorbPage s p minkey key l pageNum pv).ptrs j =
      if j = SBTREE_GET_COUNT p + 1 then pageNum
      else if j = SBTREE_GET_COUNT p then wrap32 pv
      else p.ptrs j := by
  unfold absorbPage
  dsimp only
  rw [if_pos hc, if_neg hne]
  by_cases hr : l = 0 ∧ s.levels > 1
  · rw [if_pos hr, if_pos ⟨by have := hroot hr; omega, hpv⟩]
    refine ⟨rfl, rfl, ?_⟩
    intro j
    simp only [SBTREE_INC_COUNT, upd]
    split_ifs <;> omega
  · rw [if_neg hr, if_pos hpv]
    refine ⟨rfl, rfl, ?_⟩
    intro j
    simp only [SBTREE_INC_COUNT, upd]

/-- Fields of an absorbed deepest node (first loop iteration:
`prevPageNum = -1`, only the new child pointer is linked; the separator
is only written while a key slot is free). -/
theorem absorbPage_deep (s : SB) (p : Page) (minkey key pageNum : Nat) (l : Nat)
    (hl : l = s.levels - 1) :
    (absorbPage s p minkey key l pageNum (-1)).rawCount = (p.rawCount + 1) % 65536 ∧
    (absorbPage s p minkey key l pageNum (-1)).keys =
      (if SBTREE_GET_COUNT p < s.maxInteriorRecordsPerPage
        then upd p.keys (SBTREE_GET_COUNT p) key else p.keys) ∧
    (absorbPage s p minkey key l pageNum (-1)).ptrs =
      upd p.ptrs (SBTREE_GET_COUNT p) pageNum := by
  unfold absorbPage
  dsimp only
  rw [if_pos hl]
  have hr : ¬ (l = 0 ∧ s.levels > 1) := by omega
  by_cases hc : SBTREE_GET_COUNT p < s.maxInteriorRecordsPerPage
  · rw [if_pos hc, if_neg hr, if_neg (by norm_num)]
    refine ⟨?_, ?_, ?_⟩ <;> simp [SBTREE_INC_COUNT, hc]
  · rw [if_neg hc, if_neg hr, if_neg (by norm_num)]
    refine ⟨?_, ?_, ?_⟩ <;> simp [SBTREE_INC_COUNT, hc]

/-- Fields of a freshly created non-deepest node. -/
theorem newNodePage_mid (dataSize levels key l pageNum : Nat) (hne : l ≠ levels - 1) :
    (newNodePage dataSize levels key l pageNum).rawCount = 10000 ∧
    (newNodePage dataSize levels key l pageNum).keys = (fun _ => 0) ∧
    (newNodePage dataSize levels key l pageNum).ptrs = upd (fun _ => 0) 0 pageNum := by
  unfold newNodePage
  dsimp only
  rw [if_neg hne]
  refine ⟨?_, rfl, rfl⟩
  simp [SBTREE_SET_INTERIOR, zeroPage, toInt16, wrap16]

/-- Fields of a freshly created deepest node. -/
theorem newNodePage_deep (dataSize levels key l pageNum : Nat) (heq : l = levels - 1) :
    (newNodePage dataSize levels key l pageNum).rawCount = 10001 ∧
    (newNodePage dataSize levels key l pageNum).keys = upd (fun _ => 0) 0 key ∧
    (newNodePage dataSize levels key l pageNum).ptrs = upd (fun _ => 0) 0 pageNum := by
  unfold newNodePage
  dsimp only
  rw [if_pos heq]
  refine ⟨?_, rfl, rfl⟩
  simp [SBTREE_SET_INTERIOR, SBTREE_INC_COUNT, zeroPage, toInt16, wrap16]

/-- Fields of a patched (frozen) node. -/
theorem patchPage_fields (p : Page) (pv : Int) :
    (patchPage p pv).rawCount = p.rawCount ∧
    (patchPage p pv).keys = p.keys ∧
    (patchPage p pv).ptrs = upd p.ptrs (SBTREE_GET_COUNT p) (wrap32 pv) :=
  ⟨rfl, rfl, rfl⟩

/-- Bumping a raw count below the wrap and flag limits increments the
stored count. -/
theorem count_inc {raw : Nat} (h1 : raw % 10000 < 9999) (h2 : raw < 65535) :
    (raw + 1) % 65536 = raw + 1 ∧ (raw + 1) % 10000 = raw % 10000 + 1 := by
  omega

/-- A small natural stored through `wrap32` is unchanged. -/
theorem wrap32_toNat (pv : Int) (h0 : 0 ≤ pv) (hlt : pv < 4294967296) :
    wrap32 pv = pv.toNat := by
  unfold wrap32
  omega

/-! ### Small projections and page-shape helpers for the index update -/

/-- A frozen subtree's root page is a nonzero, already-issued page. -/
theorem SubRep_bounds {st : Nat → Option Page} {N lev : Nat} {ap : Nat → Nat} {M : Nat}
    {lvl q kvs lo} (h : SubRep st N lev ap M lvl q kvs lo) : q ≠ 0 ∧ q < N := by
  cases h with
  | leaf q kvs lo p hst hq0 hqN _ _ _ _ _ _ _ => exact ⟨hq0, hqN⟩
  | node lvl q kvs lo p kvss hst hq0 hqN _ _ _ _ _ _ _ _ _ _ => exact ⟨hq0, hqN⟩

/-- All records held by a zipper's frozen frames lie below its frontier. -/
theorem SpineTo_keysLT {st : Nat → Option Page} {N lev : Nat} {ap : Nat → Nat} {M : Nat} :
    ∀ {rmin lvl hl kvs lo hi dlo}, SpineTo st N lev ap M rmin lvl hl kvs lo hi dlo →
      keysLT kvs hi := by
  intro rmin lvl hl kvs lo hi dlo h
  induction h with
  | nil rmin lvl lo hi h => intro kv hm; cases hm
  | cons rmin lvl hl p kvss kvsR lo hi dlo hf hr rest ih =>
    intro kv hm
    rcases List.mem_append.mp hm with hm | hm
    · obtain ⟨j, hj, hmj⟩ := mem_kvCat.mp hm
      exact lt_trans (hf.hub j hj kv hmj) (hf.hhi j hj)
    · exact ih kv hm

/-- Stamping the logical id does not change a leaf representation. -/
theorem LeafRep_stamp {p : Page} {kvs : List KV} (x : Nat) (h : LeafRep p kvs) :
    LeafRep { p with pageId := x } kvs := h

/-- The zeroed write buffer holds no records. -/
theorem LeafRep_zero (dataSize : Nat) : LeafRep (zeroPage dataSize) [] :=
  ⟨rfl, fun i h => absurd h (by simp)⟩

/-- Strictly sorted records have strictly increasing keys at indices. -/
theorem kvSorted_get {kvs : List KV} (h : kvSorted kvs) {i j : Nat}
    (hij : i < j) (hj : j < kvs.length) (hi : i < kvs.length) :
    (kvs.get ⟨i, hi⟩).1 < (kvs.get ⟨j, hj⟩).1 :=
  List.pairwise_iff_get.mp h ⟨i, hi⟩ ⟨j, hj⟩ hij

/-- Appending one record to the slot-0 leaf buffer, exactly as `sbtreePut`
lines 404-411 store it. -/
theorem LeafRep_snoc {p : Page} {kvs : List KV} (h : LeafRep p kvs) (k : Nat)
    (d : List Nat) (hlen : kvs.length < 9999) :
    LeafRep (SBTREE_INC_COUNT { p with
      recKey := fun i => if i = (kvs.length : Int) then k else p.recKey i,
      recData := fun i => if i = (kvs.length : Int) then d else p.recData i })
      (kvs ++ ([(k, d)] : List KV)) := by
  obtain ⟨hcnt, hrec⟩ := h
  constructor
  · show (p.rawCount + 1) % 65536 = (kvs ++ ([(k, d)] : List KV)).length
    rw [List.length_append, List.length_singleton, hcnt]
    omega
  · intro i hi
    have hlen2 : (kvs ++ ([(k, d)] : List KV)).length = kvs.length + 1 := by
      rw [List.length_append, List.length_singleton]
    by_cases hieq : i = kvs.length
    · have hgi : (kvs ++ ([(k, d)] : List KV)).get ⟨i, hi⟩ = ((k, d) : KV) := by
        subst hieq
        simp
      rw [hgi]
      constructor
      · show (if (i : Int) = (kvs.length : Int) then k else p.recKey i) = k
        rw [if_pos (by exact_mod_cast hieq)]
      · show (if (i : Int) = (kvs.length : Int) then d else p.recData i) = d
        rw [if_pos (by exact_mod_cast hieq)]
    · have hilt : i < kvs.length := by
        have h2 := hi
        rw [hlen2] at h2
        omega
      have hgi : (kvs ++ ([(k, d)] : List KV)).get ⟨i, hi⟩ = kvs.get ⟨i, hilt⟩ :=
        List.get_append i hilt
      rw [hgi]
      constructor
      · show (if (i : Int) = (kvs.length : Int) then k else p.recKey i) = _
        rw [if_neg (by exact_mod_cast hieq)]
        exact (hrec i hilt).1
      · show (if (i : Int) = (kvs.length : Int) then d else p.recData i) = _
        rw [if_neg (by exact_mod_cast hieq)]
        exact (hrec i hilt).2

/-- Storage after a slot-0 `writePage`, below the counter wrap. -/
theorem writePage_storage (s : SB) (b n : Nat) (hW : s.nextPageWriteId < 4294967296) :
    (writePage s b).1.storage n = if n = s.nextPageWriteId
      then some { s.slots b with pageId := s.nextPageId % 4294967296 }
      else s.storage n := by
  have h : (writePage s b).1.storage n = if n = s.nextPageWriteId % 4294967296
      then some { s.slots b with pageId := s.nextPageId % 4294967296 }
      else s.storage n := rfl
  rw [h, Nat.mod_eq_of_lt hW]

/-- Slot contents after `writePage`. -/
theorem writePage_slots (s : SB) (b : Nat) :
    (writePage s b).1.slots =
      upd s.slots b { s.slots b with pageId := s.nextPageId % 4294967296 } := rfl

/-- The active path is untouched by `writePage`. -/
theorem writePage_activePath (s : SB) (b : Nat) :
    (writePage s b).1.activePath = s.activePath := rfl

/-- The tree height is untouched by `writePage`. -/
theorem writePage_levels (s : SB) (b : Nat) :
    (writePage s b).1.levels = s.levels := rfl

/-- A slot-0 `writePage` preserves the pool invariant below the wrap. -/
theorem writePage0_pool {s : SB} (hW : s.nextPageWriteId < 4294967296)
    (h : PoolInv s) : PoolInv (writePage s 0).1 := by
  obtain ⟨⟨hmod, hnbp⟩, hcache, hwb, hsb⟩ := h
  refine ⟨⟨?_, hnbp⟩, ?_, ?_, ?_⟩
  · intro j
    show upd s.modified 0 NOT_MODIFIED_VAL j = _
    by_cases hj : j = 0 <;> simp [upd, hj, hmod]
  · intro j hj1 hj2 hj3
    have hs1 : (writePage s 0).1.status j = s.status j := by
      show upd s.status 0 _ j = _
      rw [upd, if_neg (by omega)]
    have hs2 : (writePage s 0).1.slots j = s.slots j := by
      rw [writePage_slots, upd, if_neg (by omega)]
    rw [hs1] at hj2 hj3 ⊢
    rw [hs2, writePage_storage s 0 _ hW]
    have hlt : s.status j < s.nextPageWriteId := hsb j hj1 hj2
    rw [if_neg (by omega)]
    exact hcache j hj1 hj2 hlt
  · intro q hq
    rw [writePage_storage s 0 _ hW]
    by_cases hqe : q = s.nextPageWriteId
    · simp [hqe]
    · rw [if_neg hqe]
      have : (writePage s 0).1.nextPageWriteId = s.nextPageWriteId + 1 := rfl
      rw [this] at hq
      exact hwb q (by omega)
  · intro j hj1 hj2
    have hs1 : (writePage s 0).1.status j = s.status j := by
      show upd s.status 0 _ j = _
      rw [upd, if_neg (by omega)]
    rw [hs1] at hj2 ⊢
    have : (writePage s 0).1.nextPageWriteId = s.nextPageWriteId + 1 := rfl
    rw [this]
    have := hsb j hj1 hj2
    omega

/-- Projections of `initBufferPage`. -/
theorem initBufferPage_proj (s : SB) (b : Nat) :
    (initBufferPage s b).storage = s.storage ∧
    (initBufferPage s b).activePath = s.activePath ∧
    (initBufferPage s b).levels = s.levels ∧
    (initBufferPage s b).slots 0 = (if b = 0 then zeroPage s.dataSize else s.slots 0) := by
  refine ⟨rfl, rfl, rfl, ?_⟩
  show upd s.slots b (zeroPage s.dataSize) 0 = _
  by_cases hb : b = 0
  · subst hb
    simp [upd]
  · rw [upd, if_neg (by omega), if_neg hb]

/-- Projections of `readPageBuffer`. -/
theorem readPageBuffer_proj (s : SB) (p b : Nat) :
    (readPageBuffer s p b).storage = s.storage ∧
    (readPageBuffer s p b).activePath = s.activePath ∧
    (readPageBuffer s p b).levels = s.levels ∧
    (readPageBuffer s p b).status = s.status ∧
    (readPageBuffer s p b).modified = s.modified ∧
    (readPageBuffer s p b).nextBufferPage = s.nextBufferPage := by
  exact ⟨rfl, rfl, rfl, rfl, rfl, rfl⟩

/-- Interior pages with a plain, interior-flagged or root-flagged raw
count below the `int16_t` bound read as interior. -/
theorem IS_INTERIOR_of_raw {p : Page} (h : 10000 ≤ p.rawCount)
    (h2 : p.rawCount < 32768) : SBTREE_IS_INTERIOR p = true := by
  unfold SBTREE_IS_INTERIOR
  rw [toInt16_small h2]
  simp
  omega
